import Mathlib

/-!
# libcloudstorage: a verification development

Shallow embedding of parts of `bin/fuse/FileSystem.cpp` (the virtual
filesystem layer), of `src/Utility/FileServer.cpp` (the range-streaming file
server), of `src/Utility/CloudFactory.cpp` and
`bin/cloudbrowser/src/CloudContext.cpp` (the authorization endpoint), of
`src/Utility/CloudEventLoop.cpp`, `src/Utility/Item.cpp`,
`src/Request/GetItemRequest.cpp` and of the providers `AmazonS3.cpp`,
`YandexDisk.cpp` and `AnimeZone.cpp`, with theorems about them.

Conventions.
* `std::string` is a list of characters (`Str`), one `Char` per byte.
* `size_t` / `uint64_t` values are natural numbers below `2 ^ 64`; every
  machine operation that can wrap is written with an explicit `% 2 ^ 64`.
* Asynchronous code is split at its suspension points: each continuation
  (lambda) of the source is a function of its own, taking the state and the
  value the continuation is resumed with, and returning the new state and the
  list of externally visible effects (callback invocations, requests issued
  to a provider).
-/

namespace cloudstorage

/-- The `std::string` of the source: a sequence of bytes. -/
abbrev Str := List Char

/-! ## `FileSystem::sanitize` -/

/-- The local constant `forbidden` of `FileSystem::sanitize`:
the characters `~ " # % & * : < > ? / \ { | }`. -/
def forbidden : Str :=
  ['~', Char.ofNat 34, '#', '%', '&', '*', ':', '<', '>', '?', '/',
   Char.ofNat 92, Char.ofNat 123, '|', Char.ofNat 125]

/-- The test of the trimming loop of `FileSystem::sanitize`:
`res[index] == '.' || res[index] == ' '`. -/
def isDotOrSpace (c : Char) : Bool := c == '.' || c == ' '

/-- The `while` loop of `FileSystem::sanitize`, as a function of `index + 1`
(the loop variable `index` is an `int` that runs from `res.size() - 1` down to
`-1`): `while (index >= 0 && (res[index] == '.' || res[index] == ' ')) index--`.
The value returned is the final `index + 1`. -/
def sanitize_loop (res : Str) : Nat → Nat
  | 0 => 0
  | k + 1 =>
    if (res[k]?.map isDotOrSpace) = some true then sanitize_loop res k
    else k + 1

/-- The function `FileSystem::sanitize`: copy the characters that are not in `forbidden`,
then cut the result after the last character that is neither `.` nor a space
(`std::string(res.begin(), res.begin() + index + 1)`).  The cast
`static_cast<int>(res.size())` is taken to be exact: names are shorter than
`2 ^ 31` bytes. -/
def FileSystem.sanitize (name : Str) : Str :=
  let res := name.filter (fun c => !forbidden.contains c)
  if res.isEmpty then res
  else res.take (sanitize_loop res res.length)

/-- The sanitize operation as the specification words it: every forbidden
character is replaced by `_`, then trailing `.` and space are trimmed. -/
def sanitize_spec (s : Str) : Str :=
  (s.map (fun c => if forbidden.contains c then '_' else c)).rdropWhile isDotOrSpace

/-- The function `CloudContext::sanitize` (the cloud browser): forbidden characters are
replaced by `_`; nothing is trimmed. -/
def CloudContext.sanitize (name : Str) : Str :=
  name.foldl (fun result c => if forbidden.contains c then result ++ ['_'] else result ++ [c]) []

/-! ## Machine integers and ranges -/

/-- Number of values of a `uint64_t` (and of `size_t` on the 64-bit targets the
filesystem is built for). -/
def UINT64 : Nat := 2 ^ 64

/-- Unsigned 64-bit addition. -/
def add64 (a b : Nat) : Nat := (a + b) % UINT64

/-- Unsigned 64-bit subtraction (wraps around below zero). -/
def sub64 (a b : Nat) : Nat := (a + UINT64 - b % UINT64) % UINT64

/-- The `struct Range` of the library: `start_` and `size_`, both `uint64_t`.
Its declaration (`IRequest.h`) is not part of the sources at hand; the sentinel
`Range::Full` is therefore a parameter (`full`) of the functions that test it. -/
structure Range where
  start_ : Nat
  size_ : Nat
deriving DecidableEq, Repr

/-! ## `HttpServerCallback::handle` (FileServer.cpp) -/

/-- Modelled from the spec: the value of `IHttpRequest::Ok` (`IHttp.h` is not
part of the sources at hand); the specification calls it `200 OK`. -/
def IHttpRequest.Ok : Int := 200

/-- Modelled from the spec: the value of `IHttpRequest::Partial` (`IHttp.h` is
not part of the sources at hand); the specification calls it
`206 Partial Content`. -/
def IHttpRequest.Partial : Int := 206

/-- Modelled from the spec: the value of `IHttpRequest::Bad` (`IHttp.h` is not
part of the sources at hand); the specification gives `400`. -/
def IHttpRequest.Bad : Int := 400

/-- Modelled from the spec: the value of `IHttpRequest::RangeInvalid` (`IHttp.h`
is not part of the sources at hand); the specification gives `416`. -/
def IHttpRequest.RangeInvalid : Int := 416

/-- The message constants of `util::Error` that the file server uses; their
texts are declared outside the sources at hand. -/
inductive util.Error where
  | INVALID_STATE
  | INVALID_RANGE
  | INVALID_REQUEST
  | INVALID_NODE
  | ABORTED
deriving DecidableEq, Repr

/-- The record `{state, id, name, size}` decoded from the last path segment. -/
structure FileUrl where
  state : Str
  id : Str
  name : Str
  size : Nat
deriving DecidableEq, Repr

/-- What `handle` reads of an `IHttpServer::IRequest`: the decoded last path
segment (`none` when decoding throws a `Json::Exception`), the method and the
`Range` header (`none` when `request.header("Range")` is null). -/
structure IRequest where
  json : Option FileUrl
  method : Str
  range : Option Str
deriving DecidableEq, Repr

/-- The body of a response: a fixed string (`util::response_from_string`), or
the stream of an `HttpData` constructed for `(file id, range)`. -/
inductive ResponseBody where
  | text (message : Option util.Error)
  | data (file : Str) (range : Range)
deriving DecidableEq, Repr

/-- The response `handle` returns: status code, headers (an
`unordered_map`, here an association list), the declared body length handed to
`request.response` (`none` for `response_from_string`, which computes it from
its string) and the body. -/
structure IResponse where
  code : Int
  headers : List (Str × Str)
  size : Option Nat
  body : ResponseBody
deriving DecidableEq, Repr

/-- The assignment `headers[key] = value` of an `unordered_map`. -/
def assign {α β : Type} [DecidableEq α] (m : List (α × β)) (key : α) (value : β) :
    List (α × β) :=
  match m with
  | [] => [(key, value)]
  | (k, v) :: rest => if k = key then (key, value) :: rest else (k, v) :: assign rest key value

/-- The lookup `find(key)` of an `unordered_map`. -/
def find {α β : Type} [DecidableEq α] (m : List (α × β)) (key : α) : Option β :=
  match m with
  | [] => none
  | (k, v) :: rest => if k = key then some v else find rest key

/-- The erasure `erase(key)` of an `unordered_map`. -/
def eraseKey {α β : Type} [DecidableEq α] (m : List (α × β)) (key : α) : List (α × β) :=
  m.filter (fun kv => !decide (kv.1 = key))

/-- The expression `filename.substr(filename.find_last_of('.') + 1)`: what
follows the last dot, the whole name when it has none (`npos + 1 == 0`). -/
def extension (filename : Str) : Str :=
  (filename.reverse.takeWhile (fun c => c != '.')).reverse

/-- The text `stream << n` writes for an unsigned integer. -/
def decimal (n : Nat) : Str := (Nat.repr n).toList

/-- The `Content-Range` value assembled by `handle`:
`"bytes " << start_ << "-" << start_ + size_ - 1 << "/" << size`. -/
def content_range (range : Range) (size : Nat) : Str :=
  "bytes ".toList ++ decimal range.start_ ++ "-".toList
    ++ decimal (sub64 (add64 range.start_ range.size_) 1) ++ "/".toList ++ decimal size

/-- The function `HttpServerCallback::handle`.  Parameters standing for declarations that
are outside the sources at hand: `full` is `Range::Full`, `parse_range` is
`util::parse_range`, `to_mime_type` is `util::to_mime_type`; `state` is
`provider_->auth()->state()`. -/
def HttpServerCallback.handle (full : Nat) (parse_range : Str → Range)
    (to_mime_type : Str → Str) (state : Str) (request : IRequest) : IResponse :=
  match request.json with
  | none => ⟨IHttpRequest.Bad, [], none, .text (some .INVALID_REQUEST)⟩
  | some json =>
    if json.state ≠ state then ⟨IHttpRequest.Bad, [], none, .text (some .INVALID_STATE)⟩
    else
      let id := json.id
      let filename := json.name
      let size := json.size
      let headers : List (Str × Str) :=
        [("Content-Type".toList, to_mime_type (extension filename)),
         ("Accept-Ranges".toList, "bytes".toList),
         ("Content-Disposition".toList,
            "inline; filename=".toList ++ [Char.ofNat 34] ++ filename ++ [Char.ofNat 34]),
         ("Access-Control-Allow-Origin".toList, "*".toList),
         ("Access-Control-Allow-Headers".toList, "*".toList)]
      if request.method = "OPTIONS".toList then ⟨IHttpRequest.Ok, headers, none, .text none⟩
      else
        match request.range with
        | some range_str =>
          let range := parse_range range_str
          let range : Range :=
            if range.size_ = full then ⟨range.start_, sub64 size range.start_⟩ else range
          if add64 range.start_ range.size_ > size then
            ⟨IHttpRequest.RangeInvalid, [], none, .text (some .INVALID_RANGE)⟩
          else
            ⟨IHttpRequest.Partial,
             assign headers "Content-Range".toList (content_range range size),
             some range.size_, .data id range⟩
        | none => ⟨IHttpRequest.Ok, headers, some size, .data id ⟨0, size⟩⟩

/-- The request `GET /<state>/<b64>` for the record `json`, with an optional
`Range` header. -/
def get_request (json : FileUrl) (range : Option Str) : IRequest :=
  ⟨some json, "GET".toList, range⟩

/-! ## The data model of the virtual filesystem (FileSystem.cpp) -/

/-- The `FileId` of the filesystem: an inode number (`uint64_t`). -/
abbrev FileId := Nat

/-- The enumeration `IItem::FileType`. -/
inductive FileType where
  | Audio
  | Video
  | Image
  | Directory
  | Unknown
deriving DecidableEq, Repr

/-- The identity of an `Item` object: one a provider handed out (in a listing
or as the result of a request), or the `k`-th one the filesystem made itself. -/
inductive ItemPtr where
  | remote (k : Nat)
  | made (k : Nat)
deriving DecidableEq, Repr

/-- An `Item` behind an `IItem::Pointer`.  `ptr` is the identity of the object
the shared pointer refers to: `rename_async` compares two item pointers with
`!=`, everything else reads the fields. -/
structure Item where
  ptr : ItemPtr
  filename : Str
  id : Str
  size : Nat
  type : FileType
deriving DecidableEq, Repr

/-- What the filesystem uses of an `ICloudProvider` object: `handle` is the
identity of the object (one per mounted handle), `name` is `name()` (the
provider kind), `authorizeLibraryUrl` is `authorizeLibraryUrl()` and
`rootDirectory` is `rootDirectory()->id()`. -/
structure Provider where
  handle : Nat
  name : Str
  authorizeLibraryUrl : Str
  rootDirectory : Str
deriving DecidableEq, Repr

/-- The `Error` record `{code_, description_}`. -/
structure Error where
  code_ : Int
  description_ : Str
deriving DecidableEq, Repr

/-- The `EitherError<T>` of the library: an error (`left`) or a value
(`right`). -/
inductive EitherError (α : Type) where
  | left (e : Error)
  | right (a : α)
deriving DecidableEq, Repr

/-- Constants that the filesystem reads from headers outside the sources at
hand (`FileSystem.h`, `IItem.h`, `IHttp.h`); they are parameters of the
model. -/
structure Constants where
  READ_AHEAD : Nat
  CACHED_CHUNK_COUNT : Nat
  CACHE_DIRECTORY_DURATION : Nat
  UnknownSize : Nat
  Failure : Int
  NotEmpty : Int
  ServiceUnavailable : Int
  NotFound : Int
deriving DecidableEq, Repr

/-- The constant `AUTH_ITEM_ID`. -/
def AUTH_ITEM_ID : Str := "NVap5sT9XY".toList

/-- The function `authorize_file`. -/
def authorize_file (url : Str) : Str :=
  "<html><script>window.location.href=".toList ++ [Char.ofNat 34] ++ url
    ++ [Char.ofNat 34] ++ ";</script></html>".toList

/-- The function `auth_item`: the synthetic `authorize.html` item.  `ptr` is
the identity of the freshly made object, `UnknownTimeStamp` is not modelled. -/
def auth_item (ptr : ItemPtr) (url : Str) : Item :=
  ⟨ptr, "authorize.html".toList, AUTH_ITEM_ID, (authorize_file url).length, .Unknown⟩

/-- A cached chunk `{range_, data_}` of a node. -/
structure Chunk where
  range_ : Range
  data_ : Str
deriving DecidableEq, Repr

/-- A parked read `{range_, callback_}`; the callback is named by a number. -/
structure ReadRequest where
  range_ : Range
  callback_ : Nat
deriving DecidableEq, Repr

/-- A `FileSystem::Node` object. `store_` is the content of the open write
buffer (`none` when the stream pointer is null), `upload_request_` the
identity of the upload request (`none` when null). -/
structure Node where
  provider_ : Option Provider
  item_ : Option Item
  parent_ : FileId
  inode_ : FileId
  size_ : Nat
  path_ : Str
  cache_filename_ : Str
  store_ : Option Str
  upload_request_ : Option Nat
  list_directory_pending_ : Bool
  pending_download_ : List Range
  chunk_ : List Chunk
  read_request_ : List ReadRequest
deriving DecidableEq, Repr

/-- The constructor `Node::Node()`. -/
def Node.empty : Node :=
  ⟨none, none, 0, 0, 0, [], [], none, none, false, [], [], []⟩

/-- The constructor `Node::Node(p, item, parent, inode, size)`. -/
def Node.make (p : Option Provider) (item : Option Item) (parent inode : FileId)
    (size : Nat) : Node :=
  ⟨p, item, parent, inode, size, [], [], none, none, false, [], [], []⟩

/-- A `Node::Pointer`: the index of a `Node` object among the objects allocated
so far, or `none` for a pointer to a fresh `Node()` that nothing else refers
to (what `get` returns for an unknown inode). -/
abbrev NodePtr := Option Nat

/-- The value a user callback is invoked with. -/
inductive CallbackValue where
  | data (e : EitherError Str)
  | item (e : EitherError Item)
  | node (e : EitherError NodePtr)
  | nodes (e : EitherError (List NodePtr))
  | done (e : Option Error)
deriving DecidableEq, Repr

/-- The callbacks of type `GetItemCallback` that occur: one supplied by the
user of the filesystem (named by a number) or one of the lambdas of the source,
with the values it captures. -/
inductive NodeCallback where
  | user (cb : Nat)
  | read (offset sz : Nat) (cb : Nat)
  | rename (parent : FileId) (name : Str) (newparent : FileId) (newname : Str) (cb : Nat)
  | remove (parent : FileId) (name : Str) (cb : Nat)
deriving DecidableEq, Repr

/-- The callbacks of type `ListDirectoryCallback` (on `INode::List`) that
occur: one supplied by the user, the lambda of `lookup`, or the lambda that
`remove` passes to `readdir` for a directory. -/
inductive ListCallback where
  | user (cb : Nat)
  | lookup (name : Str) (cb : NodeCallback)
  | remove (node : NodePtr) (parent : FileId) (cb : Nat)
deriving DecidableEq, Repr

/-- What the completion lambda of `FileSystem::rename` captures: the renamed
node, both parent inodes, the provider of the node and the user callback. -/
structure RenameContext where
  node : NodePtr
  parent : FileId
  newparent : FileId
  p : Provider
  callback : Nat
deriving DecidableEq, Repr

/-- The externally visible steps of the filesystem, in the order they happen:
a user callback is invoked, or a request is handed to a provider (whose
completion resumes the continuation recorded with it), or the running
function is left by an exception or dereferences a null pointer (`fault`). -/
inductive Effect where
  | callback (cb : Nat) (value : CallbackValue)
  | downloadFileAsync (p : Provider) (item : Item) (range : Range) (node : NodePtr)
  | listDirectorySimpleAsync (p : Provider) (item : Item) (node : FileId) (nd : NodePtr)
      (reported : Bool) (cb : ListCallback)
  | getItemUrlAsync (p : Provider) (item : Item) (node : FileId) (cb : NodeCallback)
  | renameItemAsync (p : Provider) (item : Item) (name : Str) (parent destination : Item)
      (ctx : RenameContext)
  | moveItemAsync (p : Provider) (item destination : Item) (ctx : RenameContext)
  | deleteItemAsync (p : Provider) (item : Option Item) (node : NodePtr) (parent : FileId)
      (cb : Nat)
  | cancel (request : Nat)
  | fault
deriving DecidableEq, Repr

/-! ## The tables of `FileSystem` and the functions on them -/

/-- The key `id(p, i)` of `node_id_map_`: the JSON object with member `"p"`
(the provider name, absent for a null provider) and member `"i"` (filename
followed by item id); two keys are equal exactly when their members are. -/
structure NodeKey where
  p : Option Str
  i : Str
deriving DecidableEq, Repr

/-- The function `id(p, i)`. -/
def FileSystem.id (p : Option Provider) (i : Item) : NodeKey :=
  ⟨p.map (fun x => x.name), i.filename ++ i.id⟩

/-- A `ProviderEntry` handed to the constructor. -/
structure ProviderEntry where
  label_ : Str
  provider_ : Provider
deriving DecidableEq, Repr

/-- The state of a `FileSystem`.  The `unordered_map`s are association lists
and the `unordered_set`s are lists without repetition.  `objects` holds every
`Node` object made so far (a `Node::Pointer` is an index into it), `items_made_`
counts the `Item` objects the filesystem made itself, and `fault_` records that
a null pointer was dereferenced (after which the state is meaningless). -/
structure FileSystem where
  next_ : FileId
  objects : List Node
  node_map_ : List (FileId × Nat)
  node_id_map_ : List (NodeKey × Nat)
  node_directory_ : List (FileId × List FileId)
  node_path_to_id_ : List (Str × FileId)
  node_timestamp_ : List (FileId × Nat)
  auth_node_ : List (Str × FileId)
  temporary_directory_ : Str
  items_made_ : Nat
  fault_ : Bool
deriving DecidableEq, Repr

/-- The `Node` a pointer refers to. -/
def FileSystem.deref (fs : FileSystem) (ptr : NodePtr) : Node :=
  match ptr with
  | none => Node.empty
  | some a => fs.objects.getD a Node.empty

/-- An assignment to fields of the `Node` a pointer refers to (lost when the
pointer is the only reference to a fresh `Node()`). -/
def FileSystem.update (fs : FileSystem) (ptr : NodePtr) (f : Node → Node) : FileSystem :=
  match ptr with
  | none => fs
  | some a => { fs with objects := fs.objects.set a (f (fs.objects.getD a Node.empty)) }

/-- The expression `std::make_shared<Node>(...)`. -/
def FileSystem.alloc (fs : FileSystem) (nd : Node) : FileSystem × NodePtr :=
  ({ fs with objects := fs.objects ++ [nd] }, some fs.objects.length)

/-- The insertion `insert(x)` into an `unordered_set`. -/
def insert_id (set : List FileId) (x : FileId) : List FileId :=
  if x ∈ set then set else set ++ [x]

/-- The function `FileSystem::get`. -/
def FileSystem.get (fs : FileSystem) (node : FileId) : NodePtr :=
  find fs.node_map_ node

/-- The statements of `add` and `set` that give a stored node its path:
`node->path_ = node_map_[parent]->path_ + "/" + sanitize(filename)` and
`node_path_to_id_[node->path_] = idx` when `parent > 0`, and
`node_path_to_id_[""] = idx` otherwise.  A parent that is not in `node_map_`
is a null pointer dereference. -/
def FileSystem.set_path (fs : FileSystem) (ptr : NodePtr) (idx parent : FileId)
    (filename : Str) : FileSystem :=
  if parent > 0 then
    match find fs.node_map_ parent with
    | some a =>
      let path := (fs.deref (some a)).path_ ++ "/".toList ++ FileSystem.sanitize filename
      let fs := fs.update ptr (fun nd => { nd with path_ := path })
      { fs with node_path_to_id_ := assign fs.node_path_to_id_ path idx }
    | none => { fs with fault_ := true }
  else { fs with node_path_to_id_ := assign fs.node_path_to_id_ [] idx }

/-- The function `FileSystem::add(p, parent, i)`. -/
def FileSystem.add (fs : FileSystem) (p : Option Provider) (parent : FileId) (i : Item) :
    FileSystem × NodePtr :=
  match find fs.node_id_map_ (FileSystem.id p i) with
  | none =>
    let idx := fs.next_
    let fs := { fs with next_ := (fs.next_ + 1) % UINT64 }
    let a := fs.objects.length
    let r := fs.alloc (Node.make p (some i) parent idx i.size)
    let fs := r.1
    let fs := { fs with node_map_ := assign fs.node_map_ idx a }
    let fs := { fs with node_id_map_ := assign fs.node_id_map_ (FileSystem.id p i) a }
    (fs.set_path r.2 idx parent i.filename, r.2)
  | some a => (fs, some a)

/-- The function `FileSystem::set(idx, node)`. -/
def FileSystem.set (fs : FileSystem) (idx : FileId) (node : NodePtr) : FileSystem :=
  let nd := fs.deref node
  match nd.item_, node with
  | some item, some a =>
    let fs := { fs with node_map_ := assign fs.node_map_ idx a }
    let fs := { fs with node_id_map_ := assign fs.node_id_map_ (FileSystem.id nd.provider_ item) a }
    fs.set_path node idx nd.parent_ item.filename
  | _, _ =>
    let fs :=
      match find fs.node_map_ idx with
      | some a1 =>
        let old := fs.deref (some a1)
        match old.item_ with
        | some item =>
          { fs with
            node_id_map_ := eraseKey fs.node_id_map_ (FileSystem.id old.provider_ item)
            node_map_ := eraseKey fs.node_map_ idx }
        | none => { fs with fault_ := true }
      | none => fs
    { fs with
      node_directory_ := eraseKey fs.node_directory_ idx
      node_path_to_id_ := eraseKey fs.node_path_to_id_ nd.path_ }

/-- The function `FileSystem::mknod(parent, name)`: the new state and the inode returned. -/
def FileSystem.mknod (fs : FileSystem) (parent : FileId) (name : Str) : FileSystem × FileId :=
  let p := fs.deref (fs.get parent)
  match p.provider_ with
  | none => (fs, 0)
  | some provider =>
    let item : Item := ⟨.made fs.items_made_, name, [], 0, .Unknown⟩
    let fs := { fs with items_made_ := fs.items_made_ + 1 }
    let r := fs.add (some provider) parent item
    let fs := r.1
    let inode := (fs.deref r.2).inode_
    let fs := fs.update r.2 (fun nd =>
      { nd with
        cache_filename_ := fs.temporary_directory_ ++ "cloudstorage".toList ++ decimal inode
        store_ := some [] })
    let node := fs.deref r.2
    let fs :=
      match find fs.node_directory_ node.parent_ with
      | some children =>
        { fs with node_directory_ :=
            assign fs.node_directory_ node.parent_ (insert_id children node.inode_) }
      | none => fs
    (fs, node.inode_)

/-- The function `FileSystem::invalidate(root)`.  The recursion follows the cached
directory tree; `fuel` bounds its depth. -/
def FileSystem.invalidate : Nat → FileSystem → FileId → FileSystem
  | 0, fs, _ => fs
  | fuel + 1, fs, root =>
    match find fs.node_directory_ root with
    | some children =>
      let fs := children.foldl
        (fun fs n => (FileSystem.invalidate fuel fs n).set n none) fs
      { fs with node_directory_ := eraseKey fs.node_directory_ root }
    | none => fs

/-- The constructor `FileSystem::FileSystem(provider, http, temporary_directory)`. -/
def FileSystem.create (K : Constants) (provider : List ProviderEntry)
    (temporary_directory : Str) : FileSystem :=
  let fs : FileSystem := ⟨1, [], [], [], [], [], [], [], temporary_directory, 1, false⟩
  let fs := (fs.add none 0
    ⟨.made 0, "/".toList, "root".toList, K.UnknownSize, .Directory⟩).1
  let r := provider.foldl
    (fun (acc : FileSystem × List FileId) entry =>
      let fs := acc.1
      let item : Item :=
        ⟨.made fs.items_made_, entry.label_, entry.provider_.rootDirectory, K.UnknownSize,
          .Directory⟩
      let r1 := fs.add (some entry.provider_) 1 item
      let provider_id := (r1.1.deref r1.2).inode_
      let r2 := r1.1.add (some entry.provider_) provider_id
        (auth_item (.made (fs.items_made_ + 1)) entry.provider_.name)
      let fs := r2.1
      ({ fs with
          items_made_ := fs.items_made_ + 2
          auth_node_ := assign fs.auth_node_ entry.label_ (fs.deref r2.2).inode_ },
       insert_id acc.2 provider_id))
    (fs, [])
  { r.1 with node_directory_ := assign r.1.node_directory_ 1 r.2 }

/-! ## `FileSystem::readdir` and `FileSystem::lookup` -/

/-- The type of a callback as the model runs it: the value it is invoked with
and the state it is invoked in give the new state and the effects. -/
abbrev Run (α : Type) := α → FileSystem → FileSystem × List Effect

/-- The constant `IGNORE_UNKNOWN_SIZE`. -/
def IGNORE_UNKNOWN_SIZE : Bool := false

/-- The loop of the completion lambda of `readdir` over the listed items:
`ret.insert(this->add(nd->provider(), node, i)->inode())` for every item that
is a directory, has a known size, or when unknown sizes are not ignored. -/
def add_listed (K : Constants) (p : Option Provider) (node : FileId) :
    List Item → FileSystem → List FileId → FileSystem × List FileId
  | [], fs, ret => (fs, ret)
  | i :: lst, fs, ret =>
    if i.type = .Directory ∨ i.size ≠ K.UnknownSize ∨ !IGNORE_UNKNOWN_SIZE then
      let r := fs.add p node i
      add_listed K p node lst r.1 (insert_id ret (r.1.deref r.2).inode_)
    else add_listed K p node lst fs ret

/-- The completion lambda of the listing that `readdir(node, cb)` requests,
resumed at time `now` with the result `e`; `nd` is the node `readdir` got for
`node`, `reported` tells whether `cb` has been invoked already, and `cb` is
how the callback runs. -/
def FileSystem.readdir_done (K : Constants) (now : Nat)
    (cb : Run (EitherError (List NodePtr))) (fs : FileSystem) (node : FileId) (nd : NodePtr)
    (reported : Bool) (e : EitherError (List Item)) : FileSystem × List Effect :=
  let provider := (fs.deref nd).provider_
  let r : FileSystem × List Effect :=
    match e with
    | .right lst =>
      let r := add_listed K provider node lst fs []
      let fs := { r.1 with
        node_directory_ := assign r.1.node_directory_ node r.2
        node_timestamp_ := assign r.1.node_timestamp_ node now }
      if !reported then cb (.right (r.2.map fs.get)) fs else (fs, [])
    | .left _ =>
      if !reported then
        match provider with
        | none => ({ fs with fault_ := true }, [.fault])
        | some p =>
          let item := auth_item (.made fs.items_made_) p.authorizeLibraryUrl
          let inode := (find fs.auth_node_ p.name).getD 0
          let fs := { fs with
            items_made_ := fs.items_made_ + 1
            auth_node_ := assign fs.auth_node_ p.name inode }
          let a := fs.alloc (Node.make (some p) (some item) node inode item.size)
          cb (.right [a.2]) a.1
      else (fs, [])
  if r.1.fault_ then r
  else (r.1.update nd (fun x => { x with list_directory_pending_ := false }), r.2)

/-- The function `FileSystem::readdir(node, cb)` at time `now`.  `cb` is how the callback
runs when it is invoked, `tag` is its name, recorded with the listing request
for the time the listing completes. -/
def FileSystem.readdir (K : Constants) (now : Nat) (cb : Run (EitherError (List NodePtr)))
    (tag : ListCallback) (fs : FileSystem) (node : FileId) : FileSystem × List Effect :=
  let first : FileSystem × List Effect × Bool :=
    match find fs.node_directory_ node with
    | some children =>
      let r := cb (.right (children.map fs.get)) fs
      (r.1, r.2, true)
    | none => (fs, [], false)
  let fs := first.1
  let reported := first.2.2
  let nd := fs.get node
  let n := fs.deref nd
  if n.provider_ = none ∧ reported = false then
    let r := cb (.left ⟨IHttpRequest.Bad, []⟩) fs
    (r.1, first.2.1 ++ r.2)
  else if reported = true ∧ (n.list_directory_pending_ = true ∨
      (match find fs.node_timestamp_ node with
       | some t => decide (now - t ≤ K.CACHE_DIRECTORY_DURATION)
       | none => false) = true) then
    (fs, first.2.1)
  else
    let fs := fs.update nd (fun x => { x with list_directory_pending_ := true })
    match n.provider_, n.item_ with
    | some p, some i => (fs, first.2.1 ++ [.listDirectorySimpleAsync p i node nd reported tag])
    | _, _ =>
      let r := fs.readdir_done K now cb node nd reported
        (.left ⟨K.ServiceUnavailable, []⟩)
      (r.1, first.2.1 ++ r.2)

/-- The search of the lambda of `lookup`: the first listed node whose
sanitized filename is `name`; the outer `none` is the dereference of a node
without item. -/
def lookup_find (fs : FileSystem) (name : Str) : List NodePtr → Option (Option NodePtr)
  | [] => some none
  | i :: lst =>
    match (fs.deref i).item_ with
    | none => none
    | some item =>
      if FileSystem.sanitize item.filename = name then some (some i)
      else lookup_find fs name lst

/-- The lambda that `lookup(parent_node, name, cb)` passes to `readdir`. -/
def FileSystem.lookup_lambda (name : Str) (cb : Run (EitherError NodePtr)) :
    Run (EitherError (List NodePtr)) :=
  fun e fs =>
    match e with
    | .right lst =>
      match lookup_find fs name lst with
      | some (some i) => cb (.right i) fs
      | some none => cb (.left ⟨IHttpRequest.Bad, "not found".toList⟩) fs
      | none => ({ fs with fault_ := true }, [.fault])
    | .left err => cb (.left err) fs

/-- The function `FileSystem::lookup(parent_node, name, cb)`. -/
def FileSystem.lookup (K : Constants) (now : Nat) (cb : Run (EitherError NodePtr))
    (tag : NodeCallback) (fs : FileSystem) (parent_node : FileId) (name : Str) :
    FileSystem × List Effect :=
  fs.readdir K now (FileSystem.lookup_lambda name cb) (.lookup name tag) parent_node

/-! ## `FileSystem::read` -/

/-- The member `std::string::substr(pos, len)`; `none` stands for the
`std::out_of_range` it throws when `pos > size()`. -/
def substr (s : Str) (pos len : Nat) : Option Str :=
  if pos ≤ s.length then some ((s.drop pos).take len) else none

/-- The lambda `fit` of `FileSystem::read`, for a node of size `n`. -/
def fit (n : Nat) (r : Range) : Range :=
  let start := min r.start_ (sub64 n 1)
  ⟨start, min r.size_ (sub64 n start)⟩

/-- The lambda `inside` of `FileSystem::read`. -/
def inside (n : Nat) (r1 r2 : Range) : Bool :=
  let r1 := fit n r1
  let r2 := fit n r2
  decide (r1.start_ ≥ r2.start_) &&
    decide (add64 r1.start_ r1.size_ ≤ add64 r2.start_ r2.size_)

/-- The lambda `download` of `FileSystem::read`, up to the call of
`download_item_async` (provider and item are known to be non-null there). -/
def download (K : Constants) (p : Provider) (item : Item) (ptr : NodePtr) (nd : Node)
    (range : Range) : Node × List Effect :=
  if nd.pending_download_.any (fun download_range => inside nd.size_ range download_range)
  then (nd, [])
  else
    let range := fit nd.size_ ⟨range.start_, max range.size_ K.READ_AHEAD⟩
    ({ nd with pending_download_ := nd.pending_download_ ++ [range] },
     [.downloadFileAsync p item range ptr])

/-- The search `for (auto&& chunk : nd->chunk_) if (inside(range, chunk.range_))
return cb(chunk.data_.substr(...))`: the first chunk that contains `range`. -/
def cached (n : Nat) (range : Range) (chunks : List Chunk) : Option Chunk :=
  chunks.find? (fun chunk => inside n range chunk.range_)

/-- The read-ahead part of the lambda of `FileSystem::read`: unless a cached
chunk contains the window `{range.start_ + READ_AHEAD / 2, READ_AHEAD / 2}`,
`download(Range{range.start_ + READ_AHEAD / 2, range.size_})`. -/
def read_ahead (K : Constants) (p : Provider) (item : Item) (ptr : NodePtr) (nd : Node)
    (range : Range) : Node × List Effect :=
  if nd.chunk_.any (fun chunk =>
      inside nd.size_ ⟨add64 range.start_ (K.READ_AHEAD / 2), K.READ_AHEAD / 2⟩ chunk.range_)
  then (nd, [])
  else download K p item ptr nd ⟨add64 range.start_ (K.READ_AHEAD / 2), range.size_⟩

/-- The last part of the lambda of `FileSystem::read`: answer from the first
cached chunk that contains `range`, or else park the read and call
`download(range)`. -/
def serve (K : Constants) (p : Provider) (item : Item) (ptr : NodePtr) (nd : Node)
    (range : Range) (cb : Nat) : Node × List Effect :=
  match cached nd.size_ range nd.chunk_ with
  | some chunk =>
    match substr chunk.data_ (sub64 range.start_ chunk.range_.start_) range.size_ with
    | some d => (nd, [.callback cb (.data (.right d))])
    | none => (nd, [.fault])
  | none =>
    download K p item ptr { nd with read_request_ := nd.read_request_ ++ [⟨range, cb⟩] } range

/-- The body of the lambda that `FileSystem::read` passes to `getattr`, for
the node `nd` (behind the pointer `ptr`) that `getattr` delivered; `getattr`
only delivers nodes that have an item. -/
def Node.read (K : Constants) (ptr : NodePtr) (nd : Node) (offset sz : Nat) (cb : Nat) :
    Node × List Effect :=
  match nd.provider_ with
  | none => (nd, [.callback cb (.data (.right []))])
  | some p =>
    if nd.size_ = K.UnknownSize ∨ nd.size_ = 0 then (nd, [.callback cb (.data (.right []))])
    else
      match nd.item_ with
      | none => (nd, [.fault])
      | some item =>
        if item.id = AUTH_ITEM_ID then
          let data := authorize_file p.authorizeLibraryUrl
          let start := min offset (sub64 data.length 1)
          let size := min (sub64 data.length start) sz
          match substr data start size with
          | some d => (nd, [.callback cb (.data (.right d))])
          | none => (nd, [.fault])
        else
          let range := fit nd.size_ ⟨offset, sz⟩
          let step1 := read_ahead K p item ptr nd range
          let step2 := serve K p item ptr step1.1 range cb
          (step2.1, step1.2 ++ step2.2)

/-- The loop over `requests` in the completion lambda of a download of
`range`: every parked read inside `range` is answered (with the error, or with
the part of the data that belongs to it) and erased from `read_request_`.  The
result is the remaining `read_request_` and the effects. -/
def answer_reads (n : Nat) (range : Range) (e : EitherError Str) :
    List ReadRequest → List ReadRequest → List ReadRequest × List Effect × Bool
  | [], read_request_ => (read_request_, [], true)
  | read :: requests, read_request_ =>
    if inside n read.range_ range then
      match e with
      | .left err =>
        let r := answer_reads n range e requests (read_request_.erase read)
        (r.1, Effect.callback read.callback_ (.data (.left err)) :: r.2.1, r.2.2)
      | .right data =>
        match substr data (sub64 read.range_.start_ range.start_) read.range_.size_ with
        | some d =>
          let r := answer_reads n range e requests (read_request_.erase read)
          (r.1, Effect.callback read.callback_ (.data (.right d)) :: r.2.1, r.2.2)
        | none => (read_request_, [Effect.fault], false)
    else answer_reads n range e requests read_request_

/-- The completion lambda of the download of `range` issued by
`FileSystem::read`, resumed with the result `e` of the download. -/
def Node.download_done (K : Constants) (nd : Node) (range : Range) (e : EitherError Str) :
    Node × List Effect :=
  let r := answer_reads nd.size_ range e nd.read_request_ nd.read_request_
  let nd1 := { nd with read_request_ := r.1 }
  if r.2.2 then
    let nd2 := { nd1 with pending_download_ := nd1.pending_download_.erase range }
    match e with
    | .right data =>
      let chunks := nd2.chunk_ ++ [⟨range, data⟩]
      let chunks := if chunks.length ≥ K.CACHED_CHUNK_COUNT then chunks.tail else chunks
      ({ nd2 with chunk_ := chunks }, r.2.1)
    | .left _ => (nd2, r.2.1)
  else (nd1, r.2.1)

/-! ## `FileSystem::getattr` and the filesystem side of `FileSystem::read` -/

/-- The function `FileSystem::getattr(node, cb)`, up to the request for the URL of an item
of unknown size (what follows that request, a `HEAD` on the URL, is not
modelled). -/
def FileSystem.getattr (K : Constants) (cb : Run (EitherError NodePtr)) (tag : NodeCallback)
    (fs : FileSystem) (node : FileId) : FileSystem × List Effect :=
  let n := fs.get node
  match (fs.deref n).item_ with
  | some item =>
    if item.type ≠ .Directory ∧ (fs.deref n).size_ = K.UnknownSize then
      match (fs.deref n).provider_ with
      | some p => (fs, [.getItemUrlAsync p item node tag])
      | none => ({ fs with fault_ := true }, [.fault])
    else cb (.right n) fs
  | none => cb (.left ⟨IHttpRequest.Bad, []⟩) fs

/-- The lambda that `FileSystem::read` passes to `getattr`. -/
def FileSystem.read_lambda (K : Constants) (offset sz cb : Nat) : Run (EitherError NodePtr) :=
  fun e fs =>
    match e with
    | .left err => (fs, [.callback cb (.data (.left err))])
    | .right nd =>
      let r := Node.read K nd (fs.deref nd) offset sz cb
      (fs.update nd (fun _ => r.1), r.2)

/-- The function `FileSystem::read(node, offset, sz, cb)`. -/
def FileSystem.read (K : Constants) (fs : FileSystem) (node : FileId) (offset sz cb : Nat) :
    FileSystem × List Effect :=
  fs.getattr K (FileSystem.read_lambda K offset sz cb) (.read offset sz cb) node

/-- The completion of a download that `read` requested (the effect
`downloadFileAsync p item range node`), resumed with the result `e`. -/
def FileSystem.download_done (K : Constants) (fs : FileSystem) (node : NodePtr)
    (range : Range) (e : EitherError Str) : FileSystem × List Effect :=
  let r := Node.download_done K (fs.deref node) range e
  (fs.update node (fun _ => r.1), r.2)

/-! ## `FileSystem::rename` -/

/-- The completion lambda of `FileSystem::rename` (the callback it passes to
`rename_async`), resumed with the result `e` of the rename. -/
def FileSystem.rename_done (fs : FileSystem) (ctx : RenameContext) (e : EitherError Item) :
    FileSystem × List Effect :=
  match e with
  | .right item =>
    let inode := (fs.deref ctx.node).inode_
    let fs := FileSystem.invalidate (fs.node_directory_.length + 1) fs inode
    let old_lst := (find fs.node_directory_ ctx.parent).getD []
    let fs := { fs with
      node_directory_ := assign fs.node_directory_ ctx.parent (old_lst.erase inode) }
    let fs :=
      match find fs.node_directory_ ctx.newparent with
      | some lst =>
        { fs with node_directory_ := assign fs.node_directory_ ctx.newparent (insert_id lst inode) }
      | none => fs
    let node := fs.deref ctx.node
    let r := fs.alloc (Node.make (some ctx.p) (some item) node.parent_ node.inode_ node.size_)
    (r.1.set node.inode_ r.2, [.callback ctx.callback (.item e)])
  | .left _ => (fs, [.callback ctx.callback (.item e)])

/-- The lambda `move` of `FileSystem::rename_async`. -/
def FileSystem.move (fs : FileSystem) (p : Provider) (item parent destination : Item)
    (ctx : RenameContext) : FileSystem × List Effect :=
  if parent.ptr ≠ destination.ptr then (fs, [.moveItemAsync p item destination ctx])
  else fs.rename_done ctx (.right item)

/-- The function `FileSystem::rename_async(p, item, parent, destination, name, callback)`,
where `callback` is the completion lambda of `rename` with the captures
`ctx`. -/
def FileSystem.rename_async (K : Constants) (fs : FileSystem) (p : Option Provider)
    (item parent destination : Option Item) (name : Str) (ctx : RenameContext) :
    FileSystem × List Effect :=
  match p, item, parent, destination with
  | some p, some item, some parent, some destination =>
    if FileSystem.sanitize item.filename ≠ name then
      (fs, [.renameItemAsync p item name parent destination ctx])
    else fs.move p item parent destination ctx
  | _, _, _, _ => fs.rename_done ctx (.left ⟨K.ServiceUnavailable, []⟩)

/-- The lambda that `rename_async` passes to `renameItemAsync`, resumed with
the result `e` of the provider's rename. -/
def FileSystem.rename_async_renamed (fs : FileSystem) (p : Provider)
    (parent destination : Item) (ctx : RenameContext) (e : EitherError Item) :
    FileSystem × List Effect :=
  match e with
  | .left err => fs.rename_done ctx (.left err)
  | .right item => fs.move p item parent destination ctx

/-- The lambda that `FileSystem::rename` passes to `lookup`. -/
def FileSystem.rename_lambda (K : Constants) (parent newparent : FileId) (newname : Str)
    (callback : Nat) : Run (EitherError NodePtr) :=
  fun e fs =>
    match e with
    | .left err => (fs, [.callback callback (.item (.left err))])
    | .right node =>
      let parent_node := fs.deref (fs.get parent)
      let destination_node := fs.deref (fs.get newparent)
      match parent_node.provider_, destination_node.provider_ with
      | some pp, some dp =>
        if pp.name ≠ dp.name then
          (fs, [.callback callback (.item (.left ⟨K.ServiceUnavailable,
            "can".toList ++ [Char.ofNat 39] ++ "t move files between providers".toList⟩))])
        else
          match (fs.deref node).provider_ with
          | none => (fs, [.callback callback (.item (.left ⟨K.ServiceUnavailable, []⟩))])
          | some p =>
            fs.rename_async K (some p) (fs.deref node).item_ parent_node.item_
              destination_node.item_ newname ⟨node, parent, newparent, p, callback⟩
      | _, _ =>
        (fs, [.callback callback (.item (.left ⟨K.Failure, "invalid provider".toList⟩))])

/-- The function `FileSystem::rename(parent, name, newparent, newname, callback)` at time
`now`. -/
def FileSystem.rename (K : Constants) (now : Nat) (fs : FileSystem) (parent : FileId)
    (name : Str) (newparent : FileId) (newname : Str) (callback : Nat) :
    FileSystem × List Effect :=
  if newname ≠ FileSystem.sanitize newname then
    (fs, [.callback callback (.item (.left ⟨K.ServiceUnavailable, "invalid new name".toList⟩))])
  else
    fs.lookup K now (FileSystem.rename_lambda K parent newparent newname callback)
      (.rename parent name newparent newname callback) parent name

/-! ## `FileSystem::remove` -/

/-- The lambda `update_lists` of `FileSystem::remove`. -/
def FileSystem.update_lists (fs : FileSystem) (parent : FileId) (node : NodePtr) :
    FileSystem :=
  match find fs.node_directory_ parent with
  | some lst =>
    { fs with
      node_directory_ := assign fs.node_directory_ parent (lst.erase (fs.deref node).inode_) }
  | none => fs

/-- The lambda that `remove_file` passes to `deleteItemAsync`, resumed with
the result `e` of the provider's delete (`none` for success). -/
def FileSystem.remove_deleted (fs : FileSystem) (parent : FileId) (node : NodePtr)
    (callback : Nat) (_e : Option Error) : FileSystem × List Effect :=
  (fs.update_lists parent node, [.callback callback (.done none)])

/-- The lambda `remove_file` of `FileSystem::remove`. -/
def FileSystem.remove_file (K : Constants) (fs : FileSystem) (parent : FileId)
    (node : NodePtr) (callback : Nat) : FileSystem × List Effect :=
  match (fs.deref node).upload_request_ with
  | some r => (fs.update_lists parent node, [.cancel r, .callback callback (.done none)])
  | none =>
    match (fs.deref node).provider_ with
    | none => (fs, [.callback callback (.done (some ⟨K.ServiceUnavailable, []⟩))])
    | some p => (fs, [.deleteItemAsync p (fs.deref node).item_ node parent callback])

/-- The lambda that `FileSystem::remove` passes to `readdir` for a
directory. -/
def FileSystem.remove_readdir_lambda (K : Constants) (parent : FileId) (node : NodePtr)
    (callback : Nat) : Run (EitherError (List NodePtr)) :=
  fun e fs =>
    match e with
    | .left err => (fs, [.callback callback (.done (some err))])
    | .right lst =>
      if !lst.isEmpty then
        (fs, [.callback callback (.done (some ⟨K.NotEmpty, "not empty".toList⟩))])
      else fs.remove_file K parent node callback

/-- The lambda that `FileSystem::remove` passes to `lookup`. -/
def FileSystem.remove_lambda (K : Constants) (now : Nat) (parent : FileId) (callback : Nat) :
    Run (EitherError NodePtr) :=
  fun e fs =>
    match e with
    | .left err => (fs, [.callback callback (.done (some err))])
    | .right node =>
      match (fs.deref node).item_ with
      | none => ({ fs with fault_ := true }, [.fault])
      | some item =>
        if item.type = .Directory then
          fs.readdir K now (FileSystem.remove_readdir_lambda K parent node callback)
            (.remove node parent callback) (fs.deref node).inode_
        else fs.remove_file K parent node callback

/-- The function `FileSystem::remove(parent, name, callback)` at time `now`. -/
def FileSystem.remove (K : Constants) (now : Nat) (fs : FileSystem) (parent : FileId)
    (name : Str) (callback : Nat) : FileSystem × List Effect :=
  fs.lookup K now (FileSystem.remove_lambda K now parent callback)
    (.remove parent name callback) parent name

/-! ## Resuming a recorded callback -/

/-- How a callback of type `GetItemCallback` runs. -/
def NodeCallback.run (K : Constants) (now : Nat) : NodeCallback → Run (EitherError NodePtr)
  | .user cb => fun e fs => (fs, [.callback cb (.node e)])
  | .read offset sz cb => FileSystem.read_lambda K offset sz cb
  | .rename parent _ newparent newname cb => FileSystem.rename_lambda K parent newparent newname cb
  | .remove parent _ cb => FileSystem.remove_lambda K now parent cb

/-- How a callback of type `ListDirectoryCallback` runs. -/
def ListCallback.run (K : Constants) (now : Nat) :
    ListCallback → Run (EitherError (List NodePtr))
  | .user cb => fun e fs => (fs, [.callback cb (.nodes e)])
  | .lookup name cb => FileSystem.lookup_lambda name (NodeCallback.run K now cb)
  | .remove node parent cb => FileSystem.remove_readdir_lambda K parent node cb

/-- The completion, at time `now`, of a listing that `readdir` requested (the
effect `listDirectorySimpleAsync p item node nd reported tag`), with the
result `e`. -/
def FileSystem.list_directory_done (K : Constants) (now : Nat) (fs : FileSystem)
    (node : FileId) (nd : NodePtr) (reported : Bool) (tag : ListCallback)
    (e : EitherError (List Item)) : FileSystem × List Effect :=
  fs.readdir_done K now (ListCallback.run K now tag) node nd reported e

/-! ## Notions used to state the properties of `read` -/

/-- The user callbacks among a list of effects. -/
def callbacks (effects : List Effect) : List (Nat × CallbackValue) :=
  effects.filterMap (fun e => match e with
    | .callback cb value => some (cb, value)
    | _ => none)

/-! ## Concrete inputs used in the examples -/

/-- Values for the constants that are declared outside the sources at hand,
used where a theorem evaluates the code on a concrete input. -/
def example_constants : Constants :=
  { READ_AHEAD := 2 * 1024 * 1024, CACHED_CHUNK_COUNT := 16, CACHE_DIRECTORY_DURATION := 10,
    UnknownSize := 2 ^ 64 - 1, Failure := 600, NotEmpty := 601, ServiceUnavailable := 503,
    NotFound := 404 }

/-- A provider handle of kind `dropbox`. -/
def example_provider : Provider :=
  ⟨1, "dropbox".toList, "http://auth".toList, "".toList⟩

/-- A second provider handle of kind `dropbox` (another account). -/
def example_provider_b : Provider :=
  ⟨2, "dropbox".toList, "http://auth-b".toList, "".toList⟩

/-- The filesystem mounted with the two `dropbox` handles under the labels
`A` and `B`: inode 1 is the root, inode 2 the root of `A`, inode 4 the root of
`B`. -/
def example_mount : FileSystem :=
  FileSystem.create example_constants
    [⟨"A".toList, example_provider⟩, ⟨"B".toList, example_provider_b⟩] "/tmp/".toList

/-- A call `readdir(node, cb)` by the user followed by the successful completion of
the listing it requests, with the items `lst`. -/
def listed (fs : FileSystem) (node : FileId) (lst : List Item) : FileSystem :=
  let K := example_constants
  let s := (fs.readdir K 0 (ListCallback.run K 0 (.user 0)) (.user 0) node).1
  (s.list_directory_done K 0 node (s.get node) false (.user 0) (.right lst)).1

/-- The mounted filesystem after the root of `A` has been listed (directories
`d1` and `d2`, inodes 5 and 6, and the file `a`, inode 7), then `d1` (the file
`b`, inode 8), `d2` (empty) and the root of `B` (empty). -/
def example_fs : FileSystem :=
  let fs := listed example_mount 2
    [⟨.remote 1, "d1".toList, "/d1".toList, example_constants.UnknownSize, .Directory⟩,
     ⟨.remote 2, "d2".toList, "/d2".toList, example_constants.UnknownSize, .Directory⟩,
     ⟨.remote 3, "a".toList, "/a".toList, 100, .Unknown⟩]
  let fs := listed fs 5 [⟨.remote 4, "b".toList, "/d1/b".toList, 3, .Unknown⟩]
  let fs := listed fs 6 []
  listed fs 4 []

/-! ## `StreamRequest` (FileServer.cpp) -/

/-- A call that `StreamRequest` makes on its base class `Request`:
`Request::done(e)` (where `none` is the success value `nullptr` of an
`EitherError<void>`) or `Request::cancel()`. -/
inductive BaseCall where
  | done (e : Option Error)
  | cancel
deriving DecidableEq, Repr

/-- The state of a `StreamRequest`: the flag `done_called_`. -/
structure StreamRequest where
  done_called_ : Bool
deriving DecidableEq, Repr

/-- The function `StreamRequest::cancel()`; `aborted` is
`Error{IHttpRequest::Aborted, util::Error::ABORTED}`, whose constants are
declared outside the sources at hand. -/
def StreamRequest.cancel (aborted : Error) (s : StreamRequest) :
    StreamRequest × List BaseCall :=
  if !s.done_called_ then (⟨true⟩, [.done (some aborted), .cancel])
  else (s, [.cancel])

/-- The function `StreamRequest::done(e)`. -/
def StreamRequest.done (s : StreamRequest) (e : Option Error) :
    StreamRequest × List BaseCall :=
  if !s.done_called_ then (⟨true⟩, [.done e]) else (s, [])

/-- A call on a `StreamRequest`. -/
inductive StreamCall where
  | cancel
  | done (e : Option Error)
deriving DecidableEq, Repr

/-- A sequence of calls on a `StreamRequest`, one after the other (the mutex
of the request makes the test and the assignment of `done_called_` one step):
the final state and the calls made on the base class. -/
def StreamRequest.run (aborted : Error) : StreamRequest → List StreamCall →
    StreamRequest × List BaseCall
  | s, [] => (s, [])
  | s, .cancel :: calls =>
    let r := StreamRequest.cancel aborted s
    let rest := StreamRequest.run aborted r.1 calls
    (rest.1, r.2 ++ rest.2)
  | s, .done e :: calls =>
    let r := StreamRequest.done s e
    let rest := StreamRequest.run aborted r.1 calls
    (rest.1, r.2 ++ rest.2)

/-- The values `Request::done` was invoked with, in order. -/
def completions (calls : List BaseCall) : List (Option Error) :=
  calls.filterMap (fun c => match c with
    | .done e => some e
    | .cancel => none)

/-- The value the completion is owed for a call: the abort error for
`cancel()`, `e` for `done(e)`. -/
def StreamCall.value (aborted : Error) : StreamCall → Option Error
  | .cancel => some aborted
  | .done e => e

/-! ## `AmazonS3::token` (AmazonS3.cpp) -/

/-- The credentials an `AmazonS3` object holds. -/
structure AmazonS3 where
  access_id_ : Str
  secret_ : Str
  bucket_ : Str
  s3_endpoint_ : Str
  region_ : Str
  rewritten_endpoint_ : Str
deriving DecidableEq, Repr

/-- The function `AmazonS3::access_id()`. -/
def AmazonS3.access_id (s : AmazonS3) : Str := s.access_id_

/-- The function `AmazonS3::secret()`. -/
def AmazonS3.secret (s : AmazonS3) : Str := s.secret_

/-- The function `AmazonS3::bucket()`. -/
def AmazonS3.bucket (s : AmazonS3) : Str := s.bucket_

/-- The function `AmazonS3::region()`. -/
def AmazonS3.region (s : AmazonS3) : Str := s.region_

/-- The function `AmazonS3::s3_endpoint()`. -/
def AmazonS3.s3_endpoint (s : AmazonS3) : Str :=
  if s.s3_endpoint_.isEmpty then "https://s3.amazonaws.com".toList else s.s3_endpoint_

/-- The JSON object that `AmazonS3::token()` builds and hands to
`credentialsToString`: its members, as an association list from member name
to string value. -/
def AmazonS3.token (s : AmazonS3) : List (Str × Str) :=
  let json : List (Str × Str) := []
  let json := assign json "username".toList s.access_id
  let json := assign json "password".toList s.secret
  let json := assign json "bucket".toList s.bucket
  assign json "endpoint".toList s.s3_endpoint

/-! ## The chunk cache of a node -/

/-- The statements of the completion lambda of a download that store the
chunk: `chunk_.push_back({range, data})` and then
`if (chunk_.size() >= CACHED_CHUNK_COUNT) chunk_.pop_front()`. -/
def store_chunk (K : Constants) (chunks : List Chunk) (chunk : Chunk) : List Chunk :=
  if (chunks ++ [chunk]).length ≥ K.CACHED_CHUNK_COUNT then (chunks ++ [chunk]).tail
  else chunks ++ [chunk]

/-- Successful downloads that complete on a node one after the other, each
with its range and the data it returned. -/
def Node.downloads_done (K : Constants) : Node → List (Range × Str) → Node
  | nd, [] => nd
  | nd, d :: rest =>
    Node.downloads_done K (Node.download_done K nd d.1 (.right d.2)).1 rest

/-! ## The authorization endpoint (CloudFactory.cpp, CloudContext.cpp) -/

/-- Modelled from the spec: the value of `IHttpRequest::NotFound` (`IHttp.h` is
not part of the sources at hand); the specification gives `404`. -/
def IHttpRequest.NotFound : Int := 404

/-- What the handlers of the authorization endpoint read of a request: the
URL and the query parameters `code`, `error` and `error_description` (`none`
when `request.get(...)` is null). -/
structure AuthRequest where
  url : Str
  code : Option Str
  error : Option Str
  error_description : Option Str
deriving DecidableEq, Repr

/-- The body given to `util::response_from_string`: one of the resources
compiled into the program, named by its symbol or file name, or a text. -/
inductive AuthBody where
  | resource (name : Str)
  | text (s : Str)
deriving DecidableEq, Repr

/-- A response made by `util::response_from_string(request, code, {}, body)`. -/
structure AuthResponse where
  code : Int
  body : AuthBody
deriving DecidableEq, Repr

/-- The test `s.find(sub) != std::string::npos`. -/
def has_substring (s sub : Str) : Bool :=
  s.tails.any (fun t => sub.isPrefixOf t)

/-- The function `HttpCallback::handle` of `CloudFactory.cpp`: the response,
and the pair `(state, code)` for which a provider is created and
`exchangeCodeAsync` is requested, if any.  `first_url_part` is the function of
that name, defined outside the sources at hand. -/
def HttpCallback.handle (first_url_part : Str → Str) (request : AuthRequest) :
    AuthResponse × Option (Str × Str) :=
  let state := first_url_part request.url
  if state = "favicon.ico".toList then (⟨IHttpRequest.Ok, .resource "cloud_png".toList⟩, none)
  else if state = "static".toList ∧ request.url.length ≥ "/static/".toList.length then
    let filename := request.url.drop "/static/".toList.length
    if filename = "bootstrap.min.css".toList then
      (⟨IHttpRequest.Ok, .resource "bootstrap_min_css".toList⟩, none)
    else if filename = "bootstrap.min.js".toList then
      (⟨IHttpRequest.Ok, .resource "bootstrap_min_js".toList⟩, none)
    else if filename = "url.min.js".toList then
      (⟨IHttpRequest.Ok, .resource "url_min_js".toList⟩, none)
    else if filename = "style.min.css".toList then
      (⟨IHttpRequest.Ok, .resource "style_min_css".toList⟩, none)
    else if filename = "jquery.min.js".toList then
      (⟨IHttpRequest.Ok, .resource "jquery_min_js".toList⟩, none)
    else if filename = "vlc-blue.png".toList then
      (⟨IHttpRequest.Ok, .resource "vlc_blue_png".toList⟩, none)
    else (⟨IHttpRequest.NotFound, .text "Not found".toList⟩, none)
  else
    match request.code with
    | some code =>
      (⟨IHttpRequest.Ok, .resource "default_success_html".toList⟩, some (state, code))
    | none =>
      if request.error.isSome then
        (⟨IHttpRequest.Ok, .resource "default_error_html".toList⟩, none)
      else if has_substring request.url "/login".toList then
        if state = "4shared".toList then
          (⟨IHttpRequest.Ok, .resource "__4shared_login_html".toList⟩, none)
        else if state = "amazons3".toList then
          (⟨IHttpRequest.Ok, .resource "amazons3_login_html".toList⟩, none)
        else if state = "animezone".toList then
          (⟨IHttpRequest.Ok, .resource "animezone_login_html".toList⟩, none)
        else if state = "local".toList then
          (⟨IHttpRequest.Ok, .resource "local_login_html".toList⟩, none)
        else if state = "localwinrt".toList then
          (⟨IHttpRequest.Ok, .resource "localwinrt_login_html".toList⟩, none)
        else if state = "mega".toList then
          (⟨IHttpRequest.Ok, .resource "mega_login_html".toList⟩, none)
        else if state = "webdav".toList then
          (⟨IHttpRequest.Ok, .resource "webdav_login_html".toList⟩, none)
        else (⟨IHttpRequest.NotFound, .text "Not found".toList⟩, none)
      else (⟨IHttpRequest.Bad, .text []⟩, none)

/-- The function `CloudContext::HttpServerCallback::handle` of the cloud
browser: the response, and the pair `(state, code)` handed to `receivedCode`,
if any.  `resource` gives the content of a file of the Qt resource system
(`none` when it cannot be opened); the message texts of `util::Error` are
declared outside the sources at hand, so `node_not_found` is a parameter. -/
def CloudContext.HttpServerCallback.handle (first_url_part : Str → Str)
    (resource : Str → Option Str) (node_not_found : Str) (request : AuthRequest) :
    AuthResponse × Option (Str × Str) :=
  let state := first_url_part request.url
  if state = "static".toList ∨ state = "favicon.ico".toList then
    let path :=
      if state = "favicon.ico".toList then "/cloud.png".toList
      else request.url.drop "/static".toList.length
    match resource (":/resources".toList ++ path) with
    | none => (⟨IHttpRequest.NotFound, .text node_not_found⟩, none)
    | some content => (⟨IHttpRequest.Ok, .text content⟩, none)
  else
    match request.code with
    | some code =>
      (⟨IHttpRequest.Ok,
        .text ((resource ":/resources/default_success.html".toList).getD [])⟩,
       some (state, code))
    | none =>
      if "/login".toList.isSuffixOf request.url then
        (⟨IHttpRequest.Ok,
          .text ((resource (":/resources/".toList ++ state ++ "_login.html".toList)).getD [])⟩,
         none)
      else
        let message := "error occurred\n".toList
        let message := message ++ "code parameter is missing\n".toList
        let message :=
          match request.error with
          | some e => message ++ e ++ "\n".toList
          | none => message
        let message :=
          match request.error_description with
          | some d => message ++ d ++ "\n".toList
          | none => message
        (⟨IHttpRequest.Bad, .text message⟩, none)

/-! ## `YandexDisk::uploadFileAsync` (YandexDisk.cpp) -/

/-- The steps of an upload request that can be observed: the continuation `f`
handed to `upload_url` is invoked, `r->done` is invoked (`none` is the success
value), the `PUT` request of the lambda `upload` is sent to a URL, or a null
pointer is dereferenced. -/
inductive UploadStep where
  | continuation (ret : EitherError Str)
  | done (e : Option Error)
  | put (url : Str)
  | fault
deriving DecidableEq, Repr

/-- The run of a callback in this model: the steps it made, and whether it
returned (`false` after a null pointer dereference). -/
abbrev UploadRun := List UploadStep × Bool

/-- The lambda that `uploadFileAsync` passes to `upload_url` as `f`:
`if (ret.left()) r->done(ret.left()); upload(r, *ret.right(), ...)`.  The
call of `upload` sends the `PUT` request. -/
def YandexDisk.upload_continuation (ret : EitherError Str) : UploadRun :=
  match ret with
  | .left e => ([.done (some e), .fault], false)
  | .right url => ([.put url], true)

/-- The lambda that `upload` passes to `sendRequest`, resumed with the result
of the `PUT` request (`none` for success), with `f` the lambda
`[=](EitherError<void> e) { r->done(e); }`. -/
def YandexDisk.upload_done (e : Option Error) : UploadRun :=
  ([.done e], true)

/-- The response lambda of `upload_url`, resumed with the result `e` of the
request for the upload URL (`none` for success) when the response body is
`output`:
`if (e.left()) f(e.left()); try { *output >> response; f(response["href"].asString()); }
catch (std::exception) { f(Error{IHttpRequest::Failure, output->str()}); }`.
`href` parses the body and gives the member `href` (`none` when parsing
throws); `failure` is `IHttpRequest::Failure`. -/
def YandexDisk.upload_url_done (failure : Int) (href : Str → Option Str)
    (f : EitherError Str → UploadRun) (e : Option Error) (output : Str) : UploadRun :=
  let first : UploadRun :=
    match e with
    | some err => ((.continuation (.left err)) :: (f (.left err)).1, (f (.left err)).2)
    | none => ([], true)
  if first.2 then
    let ret : EitherError Str :=
      match href output with
      | some url => .right url
      | none => .left ⟨failure, output⟩
    (first.1 ++ (.continuation ret) :: (f ret).1, (f ret).2)
  else first

/-! ## `FileSystem::cleanup` (the finish worker) -/

/-- A call the finish worker makes on a queued request. -/
inductive RequestCall where
  | finish (r : Nat)
  | cancel (r : Nat)
deriving DecidableEq, Repr

/-- What another thread does to the data of the finish worker: it queues a
request (`FileSystem::add(RequestData)`), or it clears `running_` (the
destructor). -/
inductive Interference where
  | add (r : Nat)
  | stop
deriving DecidableEq, Repr

/-- The data the finish worker shares with the other threads: the flag
`running_` and the queue `request_data_` (requests are named by numbers). -/
structure Worker where
  running_ : Bool
  request_data_ : List Nat
deriving DecidableEq, Repr

/-- The effect of what other threads do while the worker does not hold the
mutex. -/
def Worker.apply (w : Worker) : List Interference → Worker
  | [] => w
  | .add r :: rest => Worker.apply { w with request_data_ := w.request_data_ ++ [r] } rest
  | .stop :: rest => Worker.apply { w with running_ := false } rest

/-- Where the worker is in `FileSystem::cleanup`: at the test of the outer
`while (running_)`, in `request_data_condition_.wait`, or at the test of the
inner `while (!request_data_.empty())`. -/
inductive CleanupPc where
  | outer
  | wait
  | inner
deriving DecidableEq, Repr

/-- How a run of `FileSystem::cleanup` ends: the function returned, or it
stays blocked in `wait` because nothing else happens, or the run was cut off
(the fuel of the model ran out). -/
inductive CleanupEnd where
  | returned
  | waiting
  | cut
deriving DecidableEq, Repr

/-- The function `FileSystem::cleanup`, from the point `pc` on.  The schedule
lists what the other threads do at the successive points where the worker
does not hold the mutex: before each test of `running_` in the outer loop,
while it is blocked in `wait`, and during each `finish()`.  The result is the
calls made on requests, the shared data at the end, and how the run ended. -/
def cleanup_from : Nat → CleanupPc → Worker → List (List Interference) →
    List RequestCall × Worker × CleanupEnd
  | 0, _, w, _ => ([], w, .cut)
  | fuel + 1, .outer, w, schedule =>
    let w := w.apply (schedule.headD [])
    if w.running_ then cleanup_from fuel .wait w schedule.tail
    else ([], w, .returned)
  | fuel + 1, .wait, w, schedule =>
    if !w.request_data_.isEmpty || !w.running_ then cleanup_from fuel .inner w schedule
    else
      match schedule with
      | [] => ([], w, .waiting)
      | i :: rest => cleanup_from fuel .wait (w.apply i) rest
  | fuel + 1, .inner, w, schedule =>
    match w.request_data_ with
    | [] => cleanup_from fuel .outer w schedule
    | r :: queue =>
      let w := ({ w with request_data_ := queue } : Worker).apply (schedule.headD [])
      let rest := cleanup_from fuel .inner w schedule.tail
      (.finish r :: rest.1, rest.2)

/-- The function `FileSystem::cleanup`. -/
def FileSystem.cleanup (fuel : Nat) (w : Worker) (schedule : List (List Interference)) :
    List RequestCall × Worker × CleanupEnd :=
  cleanup_from fuel .outer w schedule

/-! ## `GetItemRequest` (GetItemRequest.cpp) -/

/-- The member `std::string::find_first_of(c)`: the index of the first `c`,
`none` for `npos`. -/
def find_first_of (s : Str) (c : Char) : Option Nat :=
  if s.findIdx (fun x => x == c) < s.length then some (s.findIdx (fun x => x == c))
  else none

/-- The function `GetItemRequest::getItem`: the first item of the listing
whose filename is `name`, `none` for `nullptr`. -/
def GetItemRequest.getItem (items : List Item) (name : Str) : Option Item :=
  items.find? (fun i => i.filename = name)

/-- The function `GetItemRequest::work(item, p, complete)`, with the
completions of the listings it requests.  `listDirectory` is the result of
`listDirectorySimpleAsync` on an item, `not_found` is
`Error{IHttpRequest::NotFound, util::Error::ITEM_NOT_FOUND}`.  The result is
the value `done` is called with and the items that were listed, in order;
`none` when the fuel of the model runs out. -/
def GetItemRequest.work (listDirectory : Item → EitherError (List Item))
    (not_found : Error) : Nat → Option Item → Str → Option (EitherError Item × List Item)
  | 0, _, _ => none
  | _ + 1, none, _ => some (.left not_found, [])
  | fuel + 1, some item, p =>
    if p.isEmpty = true ∨ p.length = 1 then some (.right item, [])
    else
      let path := p.drop 1
      let name :=
        match find_first_of path '/' with
        | none => path
        | some it => path.take it
      let rest :=
        match find_first_of path '/' with
        | none => []
        | some it => path.drop it
      match listDirectory item with
      | .left e => some (.left e, [item])
      | .right items =>
        (GetItemRequest.work listDirectory not_found fuel
            (GetItemRequest.getItem items name) rest).map
          (fun r => (r.1, item :: r.2))

/-- The resolver of `GetItemRequest` for `path`: `invalid_path` is
`Error{IHttpRequest::Forbidden, util::Error::INVALID_PATH}` and `root` is
`provider()->rootDirectory()`. -/
def GetItemRequest.resolve (listDirectory : Item → EitherError (List Item)) (root : Item)
    (invalid_path not_found : Error) (path : Str) :
    Option (EitherError Item × List Item) :=
  if path.isEmpty = true ∨ path.head? ≠ some '/' then some (.left invalid_path, [])
  else GetItemRequest.work listDirectory not_found (path.length + 1) (some root) path

/-- The parts of a string between its slashes. -/
def split_slash : Str → List Str
  | [] => [[]]
  | c :: cs =>
    if c = '/' then [] :: split_slash cs
    else
      match split_slash cs with
      | s :: ss => (c :: s) :: ss
      | [] => [[c]]

/-- The segments `s1, ..., sk` of a path `/s1/.../sk`: the parts between the
slashes after the leading one; a slash at the very end does not start a
segment, so `/` has no segment. -/
def path_segments (path : Str) : List Str :=
  if (split_slash (path.drop 1)).getLast? = some [] then (split_slash (path.drop 1)).dropLast
  else split_slash (path.drop 1)

/-- The reference walk from `item` along the segments: list the current
item, take the first listed item whose filename is the next segment, go on
from it; fail with the error of a listing that fails and with `not_found`
when a segment has no match.  The result is the outcome and the items that
were listed, in order. -/
def reference_walk (listDirectory : Item → EitherError (List Item)) (not_found : Error) :
    Item → List Str → EitherError Item × List Item
  | item, [] => (.right item, [])
  | item, segment :: segments =>
    match listDirectory item with
    | .left e => (.left e, [item])
    | .right items =>
      match items.find? (fun i => i.filename = segment) with
      | none => (.left not_found, [item])
      | some next =>
        ((reference_walk listDirectory not_found next segments).1,
         item :: (reference_walk listDirectory not_found next segments).2)

/-- The reference resolution of a path: an empty path or one that does not
start with a slash fails with `invalid_path` and lists nothing; any other is
walked from the root along its segments. -/
def reference_get_item (listDirectory : Item → EitherError (List Item)) (root : Item)
    (invalid_path not_found : Error) (path : Str) : EitherError Item × List Item :=
  match path with
  | [] => (.left invalid_path, [])
  | c :: _ =>
    if c = '/' then reference_walk listDirectory not_found root (path_segments path)
    else (.left invalid_path, [])

/-! ## A rename of the synthetic `authorize.html` node -/

/-- The call `rename(2, "authorize.html", 2, "authorize.html", cb)` on the
mounted filesystem, at a time when the root of `A` has never been listed: the
new state and the request handed to the provider. -/
def example_auth_rename : FileSystem × List Effect :=
  example_mount.rename example_constants 0 2 "authorize.html".toList 2
    "authorize.html".toList 9

/-- The completion of the listing requested by `example_auth_rename` with an
error (the provider is not authorized): the continuation of `lookup` and then
of `rename` runs on the one-element list that `readdir` hands out. -/
def example_auth_renamed : FileSystem × List Effect :=
  example_auth_rename.1.list_directory_done example_constants 1 2 (some 1) false
    (.lookup "authorize.html".toList
      (.rename 2 "authorize.html".toList 2 "authorize.html".toList 9))
    (.left ⟨401, "unauthorized".toList⟩)

/-! ## `AmazonS3::endpoint` and `AmazonS3::unpackCredentials` (AmazonS3.cpp) -/

/-- The function `AmazonS3::endpoint()`. -/
def AmazonS3.endpoint (s : AmazonS3) : Str :=
  if !s.rewritten_endpoint_.isEmpty then s.rewritten_endpoint_
  else s.s3_endpoint_ ++ "/".toList ++ s.bucket_

/-- The expression `json[key].asString()` on a JSON object whose members are
strings: the empty string when the member is absent. -/
def asString (json : List (Str × Str)) (key : Str) : Str :=
  (find json key).getD []

/-- The function `AmazonS3::unpackCredentials(code)` on a credential string
that decodes to the JSON object `json`. -/
def AmazonS3.unpackCredentials (s : AmazonS3) (json : List (Str × Str)) : AmazonS3 :=
  { s with
    access_id_ := asString json "username".toList
    secret_ := asString json "password".toList
    bucket_ := asString json "bucket".toList
    s3_endpoint_ := asString json "endpoint".toList }

/-! ## `mp4upload::radix` (AnimeZone.cpp) -/

/-- The string `numerals` of `radix`. -/
def mp4upload.numerals : Str := "0123456789abcdefghijklmnopqrstuvwxyz".toList

/-- What a call of `radix` ends with: the exception
`std::logic_error(INVALID_RADIX_BASE)` or the string returned. -/
inductive mp4upload.RadixResult where
  | invalid_radix_base
  | value (s : Str)
deriving DecidableEq, Repr

/-- The loop `while (n > 0) { result += numerals[n % base]; n /= base; }` of
`radix`.  `fuel` bounds the number of times the loop condition is tested;
`none` means that the loop is still running when the fuel is used up. -/
def mp4upload.radix_loop : Nat → Nat → Nat → Str → Option Str
  | 0, _, _, _ => none
  | fuel + 1, n, base, result =>
    if n > 0 then
      mp4upload.radix_loop fuel (n / base) base
        (result ++ [mp4upload.numerals.getD (n % base) ' '])
    else some result

/-- The function `mp4upload::radix(n, base)`; `none` means that the function
has not returned within `fuel` tests of the loop condition. -/
def mp4upload.radix (fuel n base : Nat) : Option mp4upload.RadixResult :=
  if base = 0 ∨ base > 36 then some .invalid_radix_base
  else
    match mp4upload.radix_loop fuel n base [] with
    | none => none
    | some result =>
      if result.isEmpty then some (.value "0".toList) else some (.value result.reverse)

/-! ## `LoopImpl` (CloudEventLoop.cpp) -/

/-- An entry of `events_`: the lambda `[request] { request->finish(); }` that
`fulfill` queues (with the request it captured, `none` for a null pointer) or
a function handed to `invoke` by the caller. -/
inductive LoopEvent where
  | finish (request : Option Nat)
  | function (f : Nat)
deriving DecidableEq, Repr

/-- A call that `LoopImpl` makes on a request, at once or through the
cancellation thread pool: `request->cancel()` on a request, or the same call
through a null pointer. -/
inductive LoopCall where
  | cancel (request : Nat)
  | cancel_null
deriving DecidableEq, Repr

/-- The state of a `LoopImpl`: the map `pending_` from tag to request pointer
(`none` for `nullptr`), the queue `events_`, and whether
`cancellation_thread_pool_` is set. -/
structure LoopImpl where
  pending_ : List (Nat × Option Nat)
  events_ : List LoopEvent
  cancellation_thread_pool_ : Bool
deriving DecidableEq, Repr

/-- The expression `request->cancel()` on a request pointer. -/
def LoopCall.on (request : Option Nat) : LoopCall :=
  match request with
  | some r => .cancel r
  | none => .cancel_null

/-- The function `LoopImpl::add(tag, request)`. -/
def LoopImpl.add (s : LoopImpl) (tag : Nat) (request : Option Nat) : LoopImpl :=
  match find s.pending_ tag with
  | none => { s with pending_ := s.pending_ ++ [(tag, request)] }
  | some _ => { s with pending_ := eraseKey s.pending_ tag }

/-- The function `LoopImpl::invoke(f)`. -/
def LoopImpl.invoke (s : LoopImpl) (e : LoopEvent) : LoopImpl :=
  { s with events_ := s.events_ ++ [e] }

/-- The function `LoopImpl::fulfill(tag, f)`. -/
def LoopImpl.fulfill (s : LoopImpl) (tag : Nat) (f : Nat) : LoopImpl :=
  let s :=
    match find s.pending_ tag with
    | some request =>
      LoopImpl.invoke { s with pending_ := eraseKey s.pending_ tag } (.finish request)
    | none => { s with pending_ := s.pending_ ++ [(tag, none)] }
  s.invoke (.function f)

/-- The function `LoopImpl::cancel(tag)`: the new state and the call it makes
on the request it removed (scheduled on the cancellation thread pool when
there is one, made at once otherwise). -/
def LoopImpl.cancel (s : LoopImpl) (tag : Nat) : LoopImpl × List LoopCall :=
  match find s.pending_ tag with
  | some request => ({ s with pending_ := eraseKey s.pending_ tag }, [LoopCall.on request])
  | none => (s, [])

/-- The function `LoopImpl::process_events()`: the events run, in order. -/
def LoopImpl.process_events (s : LoopImpl) : LoopImpl × List LoopEvent :=
  ({ s with events_ := [] }, s.events_)

/-- The loop of `LoopImpl::clear()` over the entries of `pending_`: a request
is cancelled only `if (request)`. -/
def LoopImpl.clear_loop : List (Nat × Option Nat) → List LoopCall
  | [] => []
  | (_, some r) :: rest => .cancel r :: LoopImpl.clear_loop rest
  | (_, none) :: rest => LoopImpl.clear_loop rest

/-- The function `LoopImpl::clear()`: the new state, the calls made on
requests and the events run (the events are taken not to call back into the
loop). -/
def LoopImpl.clear (s : LoopImpl) : LoopImpl × List LoopCall × List LoopEvent :=
  ({ s with pending_ := [], events_ := if s.pending_.isEmpty then s.events_ else [],
            cancellation_thread_pool_ := false },
   LoopImpl.clear_loop s.pending_,
   if s.pending_.isEmpty then [] else s.events_)

/-- A call of the interface of `LoopImpl` by a user of the loop. -/
inductive LoopOp where
  | add (tag request : Nat)
  | fulfill (tag f : Nat)
  | cancel (tag : Nat)
deriving DecidableEq, Repr

/-- A sequence of calls on a `LoopImpl`, with the calls made on requests. -/
def LoopImpl.run : LoopImpl → List LoopOp → LoopImpl × List LoopCall
  | s, [] => (s, [])
  | s, .add tag request :: rest => LoopImpl.run (s.add tag (some request)) rest
  | s, .fulfill tag f :: rest => LoopImpl.run (s.fulfill tag f) rest
  | s, .cancel tag :: rest =>
    let r := s.cancel tag
    let t := LoopImpl.run r.1 rest
    (t.1, r.2 ++ t.2)

/-! ## A failed first listing -/

/-- A call `readdir(node, cb)` on `fs` followed by the completion of the listing
it requests with the error `401`: the new state and what the completion does. -/
def failed_first_listing (fs : FileSystem) (node : FileId) : FileSystem × List Effect :=
  let K := example_constants
  (fs.readdir K 0 (ListCallback.run K 0 (.user 7)) (.user 7) node).1.list_directory_done
    K 1 node (fs.get node) false (.user 7) (.left ⟨401, "unauthorized".toList⟩)

/-- The filesystem mounted with one `dropbox` handle whose label is the name of
the provider kind. -/
def example_mount_named : FileSystem :=
  FileSystem.create example_constants [⟨"dropbox".toList, example_provider⟩] "/tmp/".toList

/-! ## `Buffer` (FileServer.cpp) -/

/-- The constant `CHUNK_SIZE`. -/
def CHUNK_SIZE : Nat := 8 * 1024 * 1024

/-- What a `Buffer` does to the outside: a sub-request
`downloadFileRangeAsync(item_, range, ...)` handed to the provider, or the
call `request_->done(e)` that ends the stream request with an error. -/
inductive BufferCall where
  | download (range : Range)
  | request_done (e : Error)
deriving DecidableEq, Repr

/-- The state of a `Buffer`: the byte queue `data_` (front first), the range
`range_` that is left to request, and the flags `delayed_`, `done_` and
`abort_`. -/
structure Buffer where
  data_ : Str
  range_ : Range
  delayed_ : Bool
  done_ : Bool
  abort_ : Bool
deriving DecidableEq, Repr

/-- The function `Buffer::size()`. -/
def Buffer.size (b : Buffer) : Nat := b.data_.length

/-- The function `Buffer::run_download()`. -/
def Buffer.run_download (b : Buffer) : List BufferCall :=
  [.download ⟨b.range_.start_, min b.range_.size_ CHUNK_SIZE⟩]

/-- The function `Buffer::put(data, length)` with the `length` bytes `data`. -/
def Buffer.put (b : Buffer) (data : Str) : Buffer :=
  { b with data_ := b.data_ ++ data }

/-- The function `Buffer::done(e)`; `none` is the success value. -/
def Buffer.done (b : Buffer) (e : Option Error) : Buffer × List BufferCall :=
  match e with
  | some err =>
    let b := { b with abort_ := true }
    if b.done_ then (b, [])
    else ({ b with done_ := true }, [.request_done err])
  | none => (b, [])

/-- The function `Buffer::continue_download(e)`. -/
def Buffer.continue_download (b : Buffer) (e : Option Error) : Buffer × List BufferCall :=
  if e.isSome ∨ b.range_.size_ < CHUNK_SIZE then b.done e
  else
    let b := { b with
      range_ := ⟨add64 b.range_.start_ CHUNK_SIZE, sub64 b.range_.size_ CHUNK_SIZE⟩ }
    if (2 * b.size) % UINT64 < CHUNK_SIZE then (b, b.run_download)
    else ({ b with delayed_ := true }, [])

/-- The conversion `static_cast<int>(cnt)` of a `size_t` to a 32-bit `int`. -/
def to_int (cnt : Nat) : Int :=
  if cnt % 2 ^ 32 < 2 ^ 31 then (cnt % 2 ^ 32 : Nat) else (cnt % 2 ^ 32 : Nat) - 2 ^ 32

/-- What `Buffer::read` gives back: the value returned and the bytes written
to `buf`. -/
structure ReadResult where
  value : Int
  buf : Str
deriving DecidableEq, Repr

/-- The function `Buffer::read(buf, max)`: the new state, the sub-request it starts
when a download had been delayed, and its result.  `Abort` and `Suspend`
are the constants of `IHttpServer::IResponse::ICallback`, declared outside
the sources at hand. -/
def Buffer.read (Abort Suspend : Int) (b : Buffer) (max : Nat) :
    Buffer × List BufferCall × ReadResult :=
  let r : Buffer × List BufferCall :=
    if (2 * b.size) % UINT64 < CHUNK_SIZE then
      if b.delayed_ then ({ b with delayed_ := false }, b.run_download) else (b, [])
    else (b, [])
  let b := r.1
  if b.abort_ then (b, r.2, ⟨Abort, []⟩)
  else if b.data_.isEmpty then (b, r.2, ⟨Suspend, []⟩)
  else
    let cnt := min b.data_.length max
    ({ b with data_ := b.data_.drop cnt }, r.2, ⟨to_int cnt, b.data_.take cnt⟩)

/-- The success branch of the lambda `item_received` of `HttpData::request` for
a range that the item contains: the buffer gets the range and the first
sub-request is made. -/
def Buffer.item_received (b : Buffer) (range : Range) : Buffer × List BufferCall :=
  ({ b with range_ := range }, [.download ⟨range.start_, min range.size_ CHUNK_SIZE⟩])

/-- The function `HttpDataCallback::done(e)` of a sub-request (which calls
`continue_download(e)`), called again and again with success on one buffer:
the sub-requests made, in order, until a completion makes none.  `fuel` bounds
the number of completions. -/
def Buffer.drive : Nat → Buffer → List BufferCall
  | 0, _ => []
  | fuel + 1, b =>
    match (b.continue_download none).2 with
    | [] => []
    | calls => calls ++ Buffer.drive fuel (b.continue_download none).1

/-- The sub-requests a `Buffer` makes for the accepted range `{start, size}`
when every sub-request succeeds and the reader keeps the queue empty: the
first one and those of `drive`. -/
def Buffer.requests (start size : Nat) : List BufferCall :=
  let r := Buffer.item_received ⟨[], ⟨0, 0⟩, false, false, false⟩ ⟨start, size⟩
  r.2 ++ Buffer.drive (size / CHUNK_SIZE + 2) r.1

/-- The windows of the specification for the range `{start, size}`: window `k`
is `{start + k * CHUNK_SIZE, min(CHUNK_SIZE, size - k * CHUNK_SIZE)}`, for
`k` from `0` to `ceil(size / CHUNK_SIZE) - 1`. -/
def windows_spec (start size : Nat) : List BufferCall :=
  (List.range ((size + CHUNK_SIZE - 1) / CHUNK_SIZE)).map
    (fun k => .download ⟨start + k * CHUNK_SIZE, min CHUNK_SIZE (size - k * CHUNK_SIZE)⟩)

/-- A call on a `Buffer` by the provider side (`put`) or by the reader
(`read`). -/
inductive BufferOp where
  | put (data : Str)
  | read (max : Nat)
deriving DecidableEq, Repr

/-- A sequence of `put` and `read` calls on a buffer: the final state, all
the bytes put, and all the bytes the reads returned. -/
def Buffer.run (Abort Suspend : Int) : Buffer → List BufferOp → Buffer × Str × Str
  | b, [] => (b, [], [])
  | b, .put data :: rest =>
    let t := Buffer.run Abort Suspend (b.put data) rest
    (t.1, data ++ t.2.1, t.2.2)
  | b, .read max :: rest =>
    let r := Buffer.read Abort Suspend b max
    let t := Buffer.run Abort Suspend r.1 rest
    (t.1, t.2.1, r.2.2.buf ++ t.2.2)

/-! ## `Item::toString` and `IItem::fromString` (Item.cpp) -/

/-- The tables `VIDEO_EXTENSIONS`, `AUDIO_EXTENSIONS` and `IMAGE_EXTENSIONS`. -/
def VIDEO_EXTENSIONS : List Str :=
  ["3g2", "3gp", "asf", "avi", "flv", "m4v", "mkv", "mov",
   "mp4", "mpg", "rm", "srt", "swf", "vob", "wmv", "webm"].map String.toList

/-- The table `AUDIO_EXTENSIONS`. -/
def AUDIO_EXTENSIONS : List Str :=
  ["aif", "flac", "iff", "m3u", "m4a", "mid", "mp3", "mpa", "wav", "wma"].map String.toList

/-- The table `IMAGE_EXTENSIONS`. -/
def IMAGE_EXTENSIONS : List Str :=
  ["bmp", "dds", "gif", "jpg", "png", "psd", "pspimage", "tga",
   "thm", "tif", "tiff", "yuv", "ai", "eps", "ps", "svg"].map String.toList

/-- What `Item.cpp` uses of declarations that are outside the sources at hand:
the values of the enumerators of `IItem::FileType` (an `enum class`, whose
values are integers) and the number of ticks of `std::chrono::system_clock`
in a second. -/
structure ItemConstants where
  Audio : Int
  Video : Int
  Image : Int
  Unknown : Int
  ticks : Nat
deriving DecidableEq, Repr

/-- An `Item` object of `Item.cpp` with all its members.  `type_` is the integer
value of the `IItem::FileType`, `timestamp_` the number of clock ticks since
the epoch, `size_` a `size_t`. -/
structure Utility.Item where
  filename_ : Str
  id_ : Str
  url_ : Str
  size_ : Nat
  timestamp_ : Int
  thumbnail_url_ : Str
  type_ : Int
  is_hidden_ : Bool
  parents_ : List Str
  mime_type_ : Str
deriving DecidableEq, Repr

/-- The function `find(array, length, str)` of `Item.cpp`: `str` in lower case is
an entry of `array`. -/
def Utility.find (array : List Str) (str : Str) : Bool :=
  array.contains (str.map Char.toLower)

/-- The function `Item::fromExtension`. -/
def Utility.Item.fromExtension (C : ItemConstants) (ext : Str) : Int :=
  if Utility.find VIDEO_EXTENSIONS ext then C.Video
  else if Utility.find AUDIO_EXTENSIONS ext then C.Audio
  else if Utility.find IMAGE_EXTENSIONS ext then C.Image
  else C.Unknown

/-- The function `Item::extension()`. -/
def Utility.Item.extension (i : Utility.Item) : Str := cloudstorage.extension i.filename_

/-- The constructor `Item::Item(filename, id, size, timestamp, type)`. -/
def Utility.Item.make (C : ItemConstants) (filename id : Str) (size : Nat) (timestamp : Int)
    (type : Int) : Utility.Item :=
  let i : Utility.Item := ⟨filename, id, [], size, timestamp, [], type, false, [], []⟩
  if i.type_ = C.Unknown then
    { i with type_ := Utility.Item.fromExtension C i.extension }
  else i

/-- The function `Item::set_type`. -/
def Utility.Item.set_type (i : Utility.Item) (t : Int) : Utility.Item := { i with type_ := t }

/-- The function `Item::set_thumbnail_url`. -/
def Utility.Item.set_thumbnail_url (i : Utility.Item) (url : Str) : Utility.Item :=
  { i with thumbnail_url_ := url }

/-- The function `Item::set_hidden`. -/
def Utility.Item.set_hidden (i : Utility.Item) (e : Bool) : Utility.Item :=
  { i with is_hidden_ := e }

/-- The function `Item::set_url`. -/
def Utility.Item.set_url (i : Utility.Item) (url : Str) : Utility.Item := { i with url_ := url }

/-- The function `Item::set_mime_type`. -/
def Utility.Item.set_mime_type (i : Utility.Item) (mime : Str) : Utility.Item :=
  { i with mime_type_ := mime }

/-- The function `Item::set_parents`. -/
def Utility.Item.set_parents (i : Utility.Item) (parents : List Str) : Utility.Item :=
  { i with parents_ := parents }

/-- A `Json::Value` as `Item.cpp` makes and reads it: null, an integer, a
string, a boolean, or an array of strings. -/
inductive JsonValue where
  | null
  | number (v : Int)
  | string (s : Str)
  | boolean (b : Bool)
  | strings (l : List Str)
deriving DecidableEq, Repr

/-- The text of an integer. -/
def decimal_int (v : Int) : Str :=
  if v < 0 then '-' :: decimal v.natAbs else decimal v.natAbs

/-- The member `Json::Value::asString()`; `none` stands for the exception
thrown when the value is not convertible. -/
def JsonValue.asString : JsonValue → Option Str
  | .null => some []
  | .number v => some (decimal_int v)
  | .string s => some s
  | .boolean b => some (if b then "true".toList else "false".toList)
  | .strings _ => none

/-- The member `Json::Value::asInt64()`. -/
def JsonValue.asInt64 : JsonValue → Option Int
  | .null => some 0
  | .number v => if -(2 ^ 63) ≤ v ∧ v < 2 ^ 63 then some v else none
  | .boolean b => some (if b then 1 else 0)
  | _ => none

/-- The member `Json::Value::asUInt64()`. -/
def JsonValue.asUInt64 : JsonValue → Option Nat
  | .null => some 0
  | .number v => if 0 ≤ v ∧ v < 2 ^ 64 then some v.toNat else none
  | .boolean b => some (if b then 1 else 0)
  | _ => none

/-- The member `Json::Value::asInt()`. -/
def JsonValue.asInt : JsonValue → Option Int
  | .null => some 0
  | .number v => if -(2 ^ 31) ≤ v ∧ v < 2 ^ 31 then some v else none
  | .boolean b => some (if b then 1 else 0)
  | _ => none

/-- The member `Json::Value::asBool()`. -/
def JsonValue.asBool : JsonValue → Option Bool
  | .null => some false
  | .number v => some (decide (v ≠ 0))
  | .boolean b => some b
  | _ => none

/-- The elements a range-based `for` over a `Json::Value` visits, each read with
`asString()`. -/
def JsonValue.elements : JsonValue → List Str
  | .strings l => l
  | _ => []

/-- A JSON object: its members. -/
abbrev JsonObject := List (Str × JsonValue)

/-- The expression `json[key]` on an object that is read: the member, null when
there is none. -/
def JsonObject.get (json : JsonObject) (key : String) : JsonValue :=
  (find json key.toList).getD .null

/-- Modelled from the spec: `util::json::to_string` (`Utility.cpp` is not part of
the sources at hand).  The specification describes a serialized item as "the
JSON with keys `filename, type, id, timestamp, size, ...`"; the text form is
not modelled, the string stands for the object it denotes. -/
def util.json.to_string (json : JsonObject) : JsonObject := json

/-- Modelled from the spec: `util::json::from_string`, which gives back the
object that a string made by `util::json::to_string` denotes. -/
def util.json.from_string (str : JsonObject) : JsonObject := str

/-- The conversion of a `size_t` or `uint64_t` to a signed 64-bit integer
(`static_cast<Json::Int64>`, and the `time_t` parameter of `from_time_t`). -/
def to_int64 (n : Nat) : Int :=
  if n % 2 ^ 64 < 2 ^ 63 then (n % 2 ^ 64 : Nat) else (n % 2 ^ 64 : Nat) - 2 ^ 64

/-- The conversion of a signed 64-bit integer to `uint64_t` or `size_t`. -/
def to_uint64 (v : Int) : Nat := (v % 2 ^ 64).toNat

/-- The function `std::chrono::system_clock::to_time_t`: whole seconds, rounded
towards zero. -/
def to_time_t (C : ItemConstants) (timestamp : Int) : Int := timestamp.tdiv C.ticks

/-- The function `std::chrono::system_clock::from_time_t`. -/
def from_time_t (C : ItemConstants) (t : Int) : Int := t * C.ticks

/-- The function `Item::toString()`. -/
def Utility.Item.toString (C : ItemConstants) (i : Utility.Item) : JsonObject :=
  let json : JsonObject := []
  let json := assign json "filename".toList (.string i.filename_)
  let json := assign json "type".toList (.number i.type_)
  let json := assign json "id".toList (.string i.id_)
  let json := assign json "timestamp".toList
    (.number (to_uint64 (to_time_t C i.timestamp_)))
  let json := assign json "size".toList (.number (to_int64 i.size_))
  let json :=
    if !i.mime_type_.isEmpty then assign json "mime_type".toList (.string i.mime_type_)
    else json
  let json :=
    if !i.parents_.isEmpty then assign json "parents".toList (.strings i.parents_) else json
  let json :=
    if i.is_hidden_ then assign json "hidden".toList (.boolean i.is_hidden_) else json
  let json :=
    if !i.thumbnail_url_.isEmpty then
      assign json "thumbnail_url".toList (.string i.thumbnail_url_)
    else json
  let json :=
    if !i.url_.isEmpty then assign json "url".toList (.string i.url_) else json
  util.json.to_string json

/-- The function `IItem::fromString(str)`; `none` stands for an exception of the
JSON library that leaves the function. -/
def IItem.fromString (C : ItemConstants) (str : JsonObject) : Option Utility.Item :=
  let json := util.json.from_string str
  match (json.get "filename").asString, (json.get "id").asString,
      (json.get "size").asInt64, (json.get "timestamp").asUInt64,
      (json.get "type").asInt with
  | some filename, some id, some size, some timestamp, some type =>
    let item := Utility.Item.make C filename id (to_uint64 size)
      (from_time_t C (to_int64 timestamp)) type
    match (json.get "thumbnail_url").asString, (json.get "hidden").asBool,
        (json.get "url").asString, (json.get "mime_type").asString with
    | some thumbnail_url, some hidden, some url, some mime_type =>
      let item := item.set_thumbnail_url thumbnail_url
      let item := item.set_hidden hidden
      let item := item.set_url url
      let item := item.set_mime_type mime_type
      some (item.set_parents (json.get "parents").elements)
    | _, _, _, _ => none
  | _, _, _, _, _ => none

/-- Values for the constants of `Item.cpp` that are declared outside the
sources at hand, used where a theorem evaluates the code on a concrete
input. -/
def example_item_constants : ItemConstants :=
  { Audio := 0, Video := 1, Image := 2, Unknown := 4, ticks := 1000000000 }

/-- The item `Item("a.mp4", "id1", 7, 5 seconds, Video)`, then `set_type(Unknown)`. -/
def example_item : Utility.Item :=
  (Utility.Item.make example_item_constants "a.mp4".toList "id1".toList 7 5000000000
    example_item_constants.Video).set_type example_item_constants.Unknown

/-! ## The downloads that a `read` issues, stated as a specification -/

theorem sanitize_loop_le (res : Str) (k : Nat) : sanitize_loop res k ≤ k := by
  induction k with
  | zero => simp [sanitize_loop]
  | succ k ih =>
    unfold sanitize_loop
    split
    · exact Nat.le_succ_of_le ih
    · exact Nat.le_refl _

theorem sanitize_loop_append (l t : Str) (k : Nat) (hk : k ≤ l.length) :
    sanitize_loop (l ++ t) k = sanitize_loop l k := by
  induction k with
  | zero => simp [sanitize_loop]
  | succ k ih =>
    have hk' : k < l.length := hk
    unfold sanitize_loop
    rw [List.getElem?_append_left hk', ih (Nat.le_of_lt hk')]

theorem take_sanitize_loop (l : Str) :
    l.take (sanitize_loop l l.length) = l.rdropWhile isDotOrSpace := by
  induction l using List.reverseRecOn with
  | nil => simp [sanitize_loop]
  | append_singleton l a ih =>
    have hlen : (l ++ [a]).length = l.length + 1 := by simp
    have hget : (l ++ [a])[l.length]? = some a := by simp
    rw [hlen]
    unfold sanitize_loop
    rw [hget]
    by_cases hp : isDotOrSpace a = true
    · have hcond : (Option.map isDotOrSpace (some a)) = some true := by
        simpa using hp
      rw [if_pos hcond, sanitize_loop_append l [a] l.length (Nat.le_refl _),
        List.rdropWhile_concat_pos _ _ _ hp, ← ih]
      exact List.take_append_of_le_length (sanitize_loop_le l l.length)
    · have hcond : ¬ (Option.map isDotOrSpace (some a)) = some true := by
        simpa using hp
      rw [if_neg hcond, List.rdropWhile_concat_neg _ _ _ hp, ← hlen, List.take_length]

theorem sanitize_eq (s : Str) :
    FileSystem.sanitize s
      = (s.filter (fun c => !forbidden.contains c)).rdropWhile isDotOrSpace := by
  unfold FileSystem.sanitize
  simp only []
  split
  · rename_i h
    rw [List.isEmpty_iff] at h
    rw [h]; rfl
  · exact take_sanitize_loop _

theorem sanitize_not_forbidden (s : Str) (c : Char) (hc : c ∈ FileSystem.sanitize s) :
    forbidden.contains c = false := by
  rw [sanitize_eq] at hc
  have h1 := (List.rdropWhile_prefix isDotOrSpace _).subset hc
  have h2 := (List.mem_filter.mp h1).2
  simpa using h2

/-- C4. `FileSystem::sanitize` is idempotent: sanitizing an already sanitized
name changes nothing. -/
theorem sanitize_idempotent (s : Str) :
    FileSystem.sanitize (FileSystem.sanitize s) = FileSystem.sanitize s := by
  have hfilter : (FileSystem.sanitize s).filter (fun c => !forbidden.contains c)
      = FileSystem.sanitize s := by
    rw [List.filter_eq_self]
    intro c hc
    rw [sanitize_not_forbidden s c hc]
    rfl
  rw [sanitize_eq (FileSystem.sanitize s), hfilter, sanitize_eq s]
  exact List.rdropWhile_idempotent _ _

/-- C5. The result of `FileSystem::sanitize` contains none of the forbidden
characters `~ " # % & * : < > ? / \ { | }`. -/
theorem sanitize_no_forbidden (s : Str) :
    ∀ c ∈ forbidden, c ∉ FileSystem.sanitize s := by
  intro c hc hmem
  have h := sanitize_not_forbidden s c hmem
  simp [hc] at h

/-- Witness of C5: the colon is forbidden and is not in the sanitized `a:b`. -/
theorem sanitize_no_forbidden_witness :
    ':' ∈ forbidden ∧ ':' ∉ FileSystem.sanitize "a:b".toList :=
  ⟨by decide, sanitize_no_forbidden "a:b".toList ':' (by decide)⟩

/-- C6, as stated, fails: on `a:b` the filesystem layer returns `ab` (the colon
is dropped, not replaced by `_`), while the cloud browser's sanitize does
replace but does not trim (`a.` stays `a.`). -/
theorem sanitize_spec_counterexample :
    FileSystem.sanitize "a:b".toList = "ab".toList ∧
    sanitize_spec "a:b".toList = "a_b".toList ∧
    FileSystem.sanitize "a:b".toList ≠ sanitize_spec "a:b".toList ∧
    CloudContext.sanitize "a.".toList ≠ sanitize_spec "a.".toList := by
  decide

/-- C6, amended. `FileSystem::sanitize` returns the name with every forbidden
character removed (the other characters kept, in order) and then with all
trailing `.` and space characters removed; so it agrees with the wording of the
specification exactly on the names that contain no forbidden character. -/
theorem sanitize_removes_and_trims (s : Str) :
    FileSystem.sanitize s
        = (s.filter (fun c => !forbidden.contains c)).rdropWhile isDotOrSpace ∧
    ((∀ c ∈ s, forbidden.contains c = false) → FileSystem.sanitize s = sanitize_spec s) := by
  refine ⟨sanitize_eq s, fun h => ?_⟩
  rw [sanitize_eq, sanitize_spec]
  congr 1
  induction s with
  | nil => rfl
  | cons a t ih =>
    have ha : forbidden.contains a = false := h a (List.mem_cons_self _ _)
    have ht : ∀ c ∈ t, forbidden.contains c = false :=
      fun c hc => h c (List.mem_cons_of_mem _ hc)
    simp only [List.filter_cons, List.map_cons, ha, Bool.not_false, if_true]
    rw [ih ht]
    simp

/-! ## Theorems on `HttpServerCallback::handle` -/

theorem find_assign_self {α β : Type} [DecidableEq α] (m : List (α × β)) (key : α)
    (value : β) : find (assign m key value) key = some value := by
  induction m with
  | nil => simp [assign, find]
  | cons kv rest ih =>
    obtain ⟨k, v⟩ := kv
    by_cases h : k = key
    · simp [assign, find, h]
    · simp [assign, find, h, ih]

/-- C2 (the code at the failing input). For `Range: bytes=100-` on a 16-byte
object (parsed to `{100, Range::Full}`) `handle` computes the size
`16 - 100` modulo `2 ^ 64`, the sum `start_ + size_` wraps around to `16`, the
test `start_ + size_ > size` is false and the answer is `206` with
`Content-Range: bytes 100-15/16` and a declared length of `2 ^ 64 - 84`
bytes, not `416`. -/
theorem handle_open_ended_past_end (full : Nat) (to_mime_type : Str → Str) :
    (HttpServerCallback.handle full (fun _ => ⟨100, full⟩) to_mime_type "st".toList
        (get_request ⟨"st".toList, "id".toList, "a.bin".toList, 16⟩
          (some "bytes=100-".toList))).code = 206 ∧
    (HttpServerCallback.handle full (fun _ => ⟨100, full⟩) to_mime_type "st".toList
        (get_request ⟨"st".toList, "id".toList, "a.bin".toList, 16⟩
          (some "bytes=100-".toList))).code ≠ IHttpRequest.RangeInvalid ∧
    (HttpServerCallback.handle full (fun _ => ⟨100, full⟩) to_mime_type "st".toList
        (get_request ⟨"st".toList, "id".toList, "a.bin".toList, 16⟩
          (some "bytes=100-".toList))).size = some (2 ^ 64 - 84) ∧
    find (HttpServerCallback.handle full (fun _ => ⟨100, full⟩) to_mime_type "st".toList
        (get_request ⟨"st".toList, "id".toList, "a.bin".toList, 16⟩
          (some "bytes=100-".toList))).headers "Content-Range".toList
      = some "bytes 100-15/16".toList := by
  have h1 : sub64 16 100 = 2 ^ 64 - 84 := by decide
  have h2 : ¬ add64 100 (2 ^ 64 - 84) > 16 := by decide
  have h3 : content_range ⟨100, 2 ^ 64 - 84⟩ 16 = "bytes 100-15/16".toList := by decide
  have h4 : ¬ ("GET".toList = "OPTIONS".toList) := by decide
  simp only [HttpServerCallback.handle, get_request, if_true, h1, h2, h3, h4, if_false,
    ne_eq, not_true_eq_false, find_assign_self]
  exact ⟨rfl, by decide, trivial, trivial⟩

/-- Every open-ended range that starts beyond the end of the object is
accepted: for `S < a`, the size `S - a` wraps around to `2 ^ 64 + S - a`, the sum
`a + size_` wraps around to `S`, and the answer is `206`. -/
theorem handle_open_ended_beyond_end (full : Nat) (parse_range : Str → Range)
    (to_mime_type : Str → Str) (state id name method hdr : Str) (S a : Nat)
    (hS : S < a) (ha : a < 2 ^ 64) (hparse : parse_range hdr = ⟨a, full⟩)
    (hm : method ≠ "OPTIONS".toList) :
    (HttpServerCallback.handle full parse_range to_mime_type state
        ⟨some ⟨state, id, name, S⟩, method, some hdr⟩).code = 206 ∧
    (HttpServerCallback.handle full parse_range to_mime_type state
        ⟨some ⟨state, id, name, S⟩, method, some hdr⟩).size = some (2 ^ 64 + S - a) := by
  have h1 : sub64 S a = 2 ^ 64 + S - a := by
    unfold sub64 UINT64
    rw [Nat.mod_eq_of_lt ha, Nat.mod_eq_of_lt (by omega)]
    omega
  have h2 : ¬ add64 a (2 ^ 64 + S - a) > S := by
    unfold add64 UINT64
    have : a + (2 ^ 64 + S - a) = S + 2 ^ 64 := by omega
    rw [this, Nat.add_mod_right, Nat.mod_eq_of_lt (by omega)]
    omega
  simp only [HttpServerCallback.handle, ne_eq, not_true_eq_false, if_false, hm, hparse,
    if_true, h1, h2]
  exact ⟨rfl, trivial⟩

/-- C3. A request (of a method other than `OPTIONS`, such as `GET`) that carries
the state of the handle and whose `Range` header parses to
`{start, len}` with `len ≥ 1` and `start + len ≤ S` is answered with `206`,
`Content-Range: bytes <start>-<start+len-1>/<S>` and declared body length `len`;
without a `Range` header the answer is `200`, declared body length `S` and no
`Content-Range` header.  (`Range::Full` is a parameter: it is the sentinel of
an open-ended range, so either `len` is not the sentinel or, the sentinel being
the largest `uint64_t`, `S ≤ full`.) -/
theorem handle_partial_content (full : Nat) (parse_range : Str → Range)
    (to_mime_type : Str → Str) (state id name method hdr : Str) (S start len : Nat)
    (hS : S < 2 ^ 64) (hlen : 1 ≤ len) (hfit : start + len ≤ S)
    (hfull : len ≠ full ∨ S ≤ full) (hparse : parse_range hdr = ⟨start, len⟩)
    (h4 : method ≠ "OPTIONS".toList) :
    (HttpServerCallback.handle full parse_range to_mime_type state
        ⟨some ⟨state, id, name, S⟩, method, some hdr⟩
      = ⟨206,
         assign (HttpServerCallback.handle full parse_range to_mime_type state
            ⟨some ⟨state, id, name, S⟩, method, none⟩).headers "Content-Range".toList
           ("bytes ".toList ++ decimal start ++ "-".toList ++ decimal (start + len - 1)
              ++ "/".toList ++ decimal S),
         some len, .data id ⟨start, len⟩⟩) ∧
    find (HttpServerCallback.handle full parse_range to_mime_type state
        ⟨some ⟨state, id, name, S⟩, method, some hdr⟩).headers "Content-Range".toList
      = some ("bytes ".toList ++ decimal start ++ "-".toList ++ decimal (start + len - 1)
              ++ "/".toList ++ decimal S) ∧
    (HttpServerCallback.handle full parse_range to_mime_type state
        ⟨some ⟨state, id, name, S⟩, method, none⟩).code = 200 ∧
    (HttpServerCallback.handle full parse_range to_mime_type state
        ⟨some ⟨state, id, name, S⟩, method, none⟩).size = some S ∧
    find (HttpServerCallback.handle full parse_range to_mime_type state
        ⟨some ⟨state, id, name, S⟩, method, none⟩).headers "Content-Range".toList = none := by
  have hsum : add64 start len = start + len := by
    unfold add64 UINT64; exact Nat.mod_eq_of_lt (by omega)
  have hsub : sub64 (start + len) 1 = start + len - 1 := by
    unfold sub64 UINT64
    have : start + len + 2 ^ 64 - 1 % 2 ^ 64 = (start + len - 1) + 2 ^ 64 := by
      have : (1 : Nat) % 2 ^ 64 = 1 := by decide
      omega
    rw [this, Nat.add_mod_right]
    exact Nat.mod_eq_of_lt (by omega)
  have hrange : (if len = full then (⟨start, sub64 S start⟩ : Range) else ⟨start, len⟩)
      = ⟨start, len⟩ := by
    by_cases hl : len = full
    · have hSf : S ≤ full := by
        rcases hfull with h | h
        · exact absurd hl h
        · exact h
      have h0 : start = 0 := by omega
      have hS' : len = S := by omega
      subst h0
      rw [if_pos hl]
      have : sub64 S 0 = len := by
        unfold sub64 UINT64
        simp only [Nat.zero_mod, Nat.sub_zero, Nat.add_mod_right]
        rw [hS']; exact Nat.mod_eq_of_lt hS
      rw [this]
    · rw [if_neg hl]
  have hle : ¬ (start + len > S) := by omega
  have hmain : HttpServerCallback.handle full parse_range to_mime_type state
        ⟨some ⟨state, id, name, S⟩, method, some hdr⟩
      = ⟨206,
         assign (HttpServerCallback.handle full parse_range to_mime_type state
            ⟨some ⟨state, id, name, S⟩, method, none⟩).headers "Content-Range".toList
           ("bytes ".toList ++ decimal start ++ "-".toList ++ decimal (start + len - 1)
              ++ "/".toList ++ decimal S),
         some len, .data id ⟨start, len⟩⟩ := by
    simp only [HttpServerCallback.handle, ne_eq, not_true_eq_false, if_false,
      h4, hparse, hrange, hsum, hle, content_range, hsub]
    rfl
  refine ⟨hmain, ?_, ?_, ?_, ?_⟩
  · rw [hmain]; exact find_assign_self _ _ _
  · simp only [HttpServerCallback.handle, ne_eq, not_true_eq_false, if_false, h4]
    rfl
  · simp only [HttpServerCallback.handle, ne_eq, not_true_eq_false, if_false, h4]
  · simp only [HttpServerCallback.handle, ne_eq, not_true_eq_false, if_false, h4]
    simp only [find]
    have e1 : ¬ ("Content-Type".toList = "Content-Range".toList) := by decide
    have e2 : ¬ ("Accept-Ranges".toList = "Content-Range".toList) := by decide
    have e3 : ¬ ("Content-Disposition".toList = "Content-Range".toList) := by decide
    have e4 : ¬ ("Access-Control-Allow-Origin".toList = "Content-Range".toList) := by decide
    have e5 : ¬ ("Access-Control-Allow-Headers".toList = "Content-Range".toList) := by decide
    simp only [e1, e2, e3, e4, e5, if_false]

/-- Witness of C3: `Range: bytes=0-7` on a 16-byte object. -/
theorem handle_partial_content_witness :
    (HttpServerCallback.handle (2 ^ 64 - 1) (fun _ => ⟨0, 8⟩) (fun _ => "video/mp4".toList)
        "st".toList (get_request ⟨"st".toList, "id".toList, "a.mp4".toList, 16⟩
          (some "bytes=0-7".toList))).code = 206 ∧
    find (HttpServerCallback.handle (2 ^ 64 - 1) (fun _ => ⟨0, 8⟩) (fun _ => "video/mp4".toList)
        "st".toList (get_request ⟨"st".toList, "id".toList, "a.mp4".toList, 16⟩
          (some "bytes=0-7".toList))).headers "Content-Range".toList
      = some "bytes 0-7/16".toList ∧
    (HttpServerCallback.handle (2 ^ 64 - 1) (fun _ => ⟨0, 8⟩) (fun _ => "video/mp4".toList)
        "st".toList (get_request ⟨"st".toList, "id".toList, "a.mp4".toList, 16⟩
          (some "bytes=0-7".toList))).size = some 8 := by
  have h := handle_partial_content (2 ^ 64 - 1) (fun _ => ⟨0, 8⟩) (fun _ => "video/mp4".toList)
    "st".toList "id".toList "a.mp4".toList "GET".toList "bytes=0-7".toList 16 0 8
    (by decide) (by decide) (by decide) (Or.inl (by decide)) rfl (by decide)
  unfold get_request
  refine ⟨?_, ?_, ?_⟩
  · rw [h.1]
  · rw [h.2.1]; decide
  · rw [h.1]

/-! ## Theorems on `FileSystem::read` -/

/-- C7 (the code at the failing input). Inodes 2 and 4 are the roots of two
different `dropbox` handles.  `rename(2, "a", 4, "a")` compares the two handles
by `name()` only, finds them equal and hands `moveItemAsync` to the first
handle, with the root item of the second handle as destination; no callback
with `ServiceUnavailable` is invoked. -/
theorem rename_between_handles_of_one_kind :
    (example_fs.deref (example_fs.get 2)).provider_ = some example_provider ∧
    (example_fs.deref (example_fs.get 4)).provider_ = some example_provider_b ∧
    example_provider.handle ≠ example_provider_b.handle ∧
    (example_fs.rename example_constants 1 2 "a".toList 4 "a".toList 9).2
      = [.moveItemAsync example_provider
          ⟨.remote 3, "a".toList, "/a".toList, 100, .Unknown⟩
          ⟨.made 3, "B".toList, [], 2 ^ 64 - 1, .Directory⟩
          ⟨some 6, 2, 4, example_provider, 9⟩] ∧
    callbacks (example_fs.rename example_constants 1 2 "a".toList 4 "a".toList 9).2 = [] := by
  decide

/-- C8 (the code at the failing input). The file `b` (inode 8) is moved from
directory `d1` (inode 5) to directory `d2` (inode 6) of one provider.
`rename` requests `moveItemAsync`; when it succeeds, the completion lambda
moves inode 8 from the cached children of 5 to those of 6, but builds the new
node with `node->parent_`: the recorded parent is still 5, the path index
still maps `/A/d1/b` to inode 8 and has no entry for `/A/d2/b`. -/
theorem rename_keeps_old_parent :
    (example_fs.rename example_constants 1 5 "b".toList 6 "b".toList 9).2
      = [.moveItemAsync example_provider
          ⟨.remote 4, "b".toList, "/d1/b".toList, 3, .Unknown⟩
          ⟨.remote 2, "d2".toList, "/d2".toList, 2 ^ 64 - 1, .Directory⟩
          ⟨some 7, 5, 6, example_provider, 9⟩] ∧
    (example_fs.rename_done ⟨some 7, 5, 6, example_provider, 9⟩
        (.right ⟨.remote 9, "b".toList, "/d2/b".toList, 3, .Unknown⟩)).2
      = [.callback 9 (.item (.right ⟨.remote 9, "b".toList, "/d2/b".toList, 3, .Unknown⟩))] ∧
    find (example_fs.rename_done ⟨some 7, 5, 6, example_provider, 9⟩
        (.right ⟨.remote 9, "b".toList, "/d2/b".toList, 3, .Unknown⟩)).1.node_directory_ 5
      = some [] ∧
    find (example_fs.rename_done ⟨some 7, 5, 6, example_provider, 9⟩
        (.right ⟨.remote 9, "b".toList, "/d2/b".toList, 3, .Unknown⟩)).1.node_directory_ 6
      = some [8] ∧
    ((example_fs.rename_done ⟨some 7, 5, 6, example_provider, 9⟩
        (.right ⟨.remote 9, "b".toList, "/d2/b".toList, 3, .Unknown⟩)).1.deref
      ((example_fs.rename_done ⟨some 7, 5, 6, example_provider, 9⟩
        (.right ⟨.remote 9, "b".toList, "/d2/b".toList, 3, .Unknown⟩)).1.get 8)).parent_ = 5 ∧
    find (example_fs.rename_done ⟨some 7, 5, 6, example_provider, 9⟩
        (.right ⟨.remote 9, "b".toList, "/d2/b".toList, 3, .Unknown⟩)).1.node_path_to_id_
      "/A/d2/b".toList = none ∧
    find (example_fs.rename_done ⟨some 7, 5, 6, example_provider, 9⟩
        (.right ⟨.remote 9, "b".toList, "/d2/b".toList, 3, .Unknown⟩)).1.node_path_to_id_
      "/A/d1/b".toList = some 8 := by
  decide

/-- C9 (the code at the failing input). `remove(2, "a")` on the file `a`
(inode 7, no upload in flight) requests `deleteItemAsync`; when the provider
answers with an error, the completion lambda still erases inode 7 from the
cached children of inode 2 and invokes the callback with success
(`nullptr`), exactly as it does when the delete succeeded. -/
theorem remove_ignores_delete_error :
    (example_fs.remove example_constants 1 2 "a".toList 9).2
      = [.deleteItemAsync example_provider
          (some ⟨.remote 3, "a".toList, "/a".toList, 100, .Unknown⟩) (some 6) 2 9] ∧
    find example_fs.node_directory_ 2 = some [5, 6, 7] ∧
    (example_fs.remove_deleted 2 (some 6) 9 (some ⟨500, "server error".toList⟩)).2
      = [.callback 9 (.done none)] ∧
    find (example_fs.remove_deleted 2 (some 6) 9
        (some ⟨500, "server error".toList⟩)).1.node_directory_ 2 = some [5, 6] ∧
    example_fs.remove_deleted 2 (some 6) 9 (some ⟨500, "server error".toList⟩)
      = example_fs.remove_deleted 2 (some 6) 9 none := by
  decide

/-- C10 (the code at the failing input). `mknod(5, "x")` creates inode 9 under
directory 5; `mknod(6, "x")`, in another directory of the same provider, finds
the key of the first node in `node_id_map_` (the key is made of the provider
name and the file name only) and returns inode 9 again: no new number is
assigned, the node returned has parent 5, and it is inserted once more into
the children of 5, not of 6. -/
theorem mknod_same_name_two_directories :
    (example_fs.mknod 5 "x".toList).2 = 9 ∧
    (example_fs.mknod 5 "x".toList).1.next_ = 10 ∧
    ((example_fs.mknod 5 "x".toList).1.mknod 6 "x".toList).2 = 9 ∧
    ((example_fs.mknod 5 "x".toList).1.mknod 6 "x".toList).1.next_ = 10 ∧
    (((example_fs.mknod 5 "x".toList).1.mknod 6 "x".toList).1.deref
      (((example_fs.mknod 5 "x".toList).1.mknod 6 "x".toList).1.get 9)).parent_ = 5 ∧
    find ((example_fs.mknod 5 "x".toList).1.mknod 6 "x".toList).1.node_directory_ 5
      = some [8, 9] ∧
    find ((example_fs.mknod 5 "x".toList).1.mknod 6 "x".toList).1.node_directory_ 6
      = some [] := by
  decide

/-! ## Theorems on `StreamRequest` -/

theorem run_done_called (aborted : Error) (calls : List StreamCall) :
    completions (StreamRequest.run aborted ⟨true⟩ calls).2 = [] := by
  induction calls with
  | nil => rfl
  | cons c calls ih =>
    cases c with
    | cancel =>
      simp only [StreamRequest.run, StreamRequest.cancel]
      simpa [completions] using ih
    | done e =>
      simp only [StreamRequest.run, StreamRequest.done]
      simpa [completions] using ih

/-- C14. On a fresh `StreamRequest`, whatever sequence of `cancel()` and
`done(e)` calls follows the first call, `Request::done` is invoked exactly
once, by the first call, with the abort error if that call is `cancel()` and
with `e` if it is `done(e)`; no later call invokes it again. -/
theorem stream_request_completes_once (aborted : Error) (first : StreamCall)
    (later : List StreamCall) :
    completions (StreamRequest.run aborted ⟨false⟩ (first :: later)).2
      = [first.value aborted] ∧
    completions (StreamRequest.run aborted ⟨false⟩ [first]).2 = [first.value aborted] ∧
    completions (StreamRequest.run aborted
      (StreamRequest.run aborted ⟨false⟩ [first]).1 later).2 = [] := by
  have h := run_done_called aborted later
  cases first with
  | cancel =>
    refine ⟨?_, rfl, h⟩
    simp only [StreamRequest.run, StreamRequest.cancel]
    have : completions ([BaseCall.done (some aborted), BaseCall.cancel]
        ++ (StreamRequest.run aborted ⟨true⟩ later).2)
        = some aborted :: completions (StreamRequest.run aborted ⟨true⟩ later).2 := by
      simp [completions]
    simpa [this, h, StreamCall.value]
  | done e =>
    refine ⟨?_, rfl, h⟩
    simp only [StreamRequest.run, StreamRequest.done]
    have : completions ([BaseCall.done e] ++ (StreamRequest.run aborted ⟨true⟩ later).2)
        = e :: completions (StreamRequest.run aborted ⟨true⟩ later).2 := by
      simp [completions]
    simpa [this, h, StreamCall.value]

/-! ## Theorems on `AmazonS3::token` -/

/-- C19 (the code on every credential state). The JSON object that
`AmazonS3::token()` serialises has the members `username`, `password`,
`bucket` and `endpoint`; it has no member `region`, which the documentation
of the class lists. -/
theorem token_has_no_region (s : AmazonS3) :
    find s.token "username".toList = some s.access_id ∧
    find s.token "password".toList = some s.secret ∧
    find s.token "region".toList = none ∧
    s.token = [("username".toList, s.access_id), ("password".toList, s.secret),
      ("bucket".toList, s.bucket), ("endpoint".toList, s.s3_endpoint)] := by
  have e1 : ¬ ("username".toList = "password".toList) := by decide
  have e2 : ¬ ("username".toList = "bucket".toList) := by decide
  have e3 : ¬ ("password".toList = "bucket".toList) := by decide
  have e4 : ¬ ("username".toList = "endpoint".toList) := by decide
  have e5 : ¬ ("password".toList = "endpoint".toList) := by decide
  have e6 : ¬ ("bucket".toList = "endpoint".toList) := by decide
  have e7 : ¬ ("username".toList = "region".toList) := by decide
  have e8 : ¬ ("password".toList = "region".toList) := by decide
  have e9 : ¬ ("bucket".toList = "region".toList) := by decide
  have e10 : ¬ ("endpoint".toList = "region".toList) := by decide
  have htok : s.token = [("username".toList, s.access_id), ("password".toList, s.secret),
      ("bucket".toList, s.bucket), ("endpoint".toList, s.s3_endpoint)] := by
    simp only [AmazonS3.token, assign, e1, e2, e3, e4, e5, e6, if_false]
  rw [htok]
  simp only [find, e1, e5, e6, e7, e8, e9, e10, if_true, if_false, and_self]

/-! ## Theorems on the chunk cache -/

theorem download_done_no_reads (K : Constants) (nd : Node) (range : Range) (data : Str)
    (h : nd.read_request_ = []) :
    (Node.download_done K nd range (.right data)).1.read_request_ = [] ∧
    (Node.download_done K nd range (.right data)).1.chunk_
      = store_chunk K nd.chunk_ ⟨range, data⟩ := by
  unfold Node.download_done store_chunk
  simp only [h, answer_reads, if_true]
  exact ⟨trivial, trivial⟩

theorem store_chunk_fold (K : Constants) (xs : List Chunk) :
    ∀ cs : List Chunk, cs.length ≤ K.CACHED_CHUNK_COUNT - 1 →
      xs.foldl (store_chunk K) cs
        = (cs ++ xs).drop ((cs ++ xs).length - (K.CACHED_CHUNK_COUNT - 1)) := by
  induction xs with
  | nil =>
    intro cs hcs
    have : (cs ++ []).length - (K.CACHED_CHUNK_COUNT - 1) = 0 := by
      simp only [List.append_nil]; omega
    rw [this]; simp
  | cons x xs ih =>
    intro cs hcs
    rw [List.foldl_cons]
    by_cases hfull : (cs ++ [x]).length ≥ K.CACHED_CHUNK_COUNT
    · have hstep : store_chunk K cs x = (cs ++ [x]).tail := by
        unfold store_chunk; rw [if_pos hfull]
      have hlen : (cs ++ [x]).tail.length = cs.length := by simp
      have hlen' : cs.length + 1 ≥ K.CACHED_CHUNK_COUNT := by simpa using hfull
      rw [hstep, ih _ (by rw [hlen]; exact hcs)]
      have e1 : (cs ++ [x]).tail ++ xs = (cs ++ x :: xs).drop 1 := by
        cases cs with
        | nil => simp
        | cons c cs => simp
      have e2 : ((cs ++ [x]).tail ++ xs).length = (cs ++ x :: xs).length - 1 := by
        rw [e1, List.length_drop]
      rw [e2, e1, List.drop_drop]
      congr 1
      simp only [List.length_append, List.length_cons]
      omega
    · have hstep : store_chunk K cs x = cs ++ [x] := by
        unfold store_chunk; rw [if_neg hfull]
      have hlen' : cs.length + 1 < K.CACHED_CHUNK_COUNT := by simpa using hfull
      rw [hstep, ih _ (by simp only [List.length_append, List.length_singleton]; omega)]
      simp

theorem downloads_done_chunks (K : Constants) (ds : List (Range × Str)) :
    ∀ nd : Node, nd.read_request_ = [] →
      (Node.downloads_done K nd ds).chunk_
        = (ds.map (fun d => (⟨d.1, d.2⟩ : Chunk))).foldl (store_chunk K) nd.chunk_ := by
  induction ds with
  | nil => intro nd _; rfl
  | cons d ds ih =>
    intro nd h
    obtain ⟨h1, h2⟩ := download_done_no_reads K nd d.1 d.2 h
    simp only [Node.downloads_done, List.map_cons, List.foldl_cons]
    rw [ih _ h1, h2]

/-- C20 (the code on every sequence of downloads). After the successful
downloads `ds` have completed, in this order, on a node made by `add`, the
cache holds the last `min(k, CACHED_CHUNK_COUNT - 1)` chunks, not the last
`min(k, CACHED_CHUNK_COUNT)`: the chunk is pushed first and the oldest is
popped as soon as the size has reached `CACHED_CHUNK_COUNT`. -/
theorem chunk_cache_holds_one_less (K : Constants) (p : Option Provider)
    (item : Option Item) (parent inode : FileId) (size : Nat) (ds : List (Range × Str)) :
    (Node.downloads_done K (Node.make p item parent inode size) ds).chunk_
      = (ds.map (fun d => (⟨d.1, d.2⟩ : Chunk))).drop
          (ds.length - (K.CACHED_CHUNK_COUNT - 1)) ∧
    (Node.downloads_done K (Node.make p item parent inode size) ds).chunk_.length
      = min ds.length (K.CACHED_CHUNK_COUNT - 1) := by
  have h := downloads_done_chunks K ds (Node.make p item parent inode size) rfl
  have h2 := store_chunk_fold K (ds.map (fun d => (⟨d.1, d.2⟩ : Chunk))) []
    (Nat.zero_le _)
  have hc : (Node.make p item parent inode size).chunk_ = [] := rfl
  rw [hc] at h
  rw [h, h2]
  simp only [List.nil_append, List.length_map, List.length_drop]
  exact ⟨trivial, by omega⟩

/-- C20 at a concrete input: with `CACHED_CHUNK_COUNT = 16`, after 16
successful downloads the cache holds 15 chunks, and the first one is gone. -/
theorem chunk_cache_after_sixteen :
    example_constants.CACHED_CHUNK_COUNT = 16 ∧
    (Node.downloads_done example_constants
      (Node.make (some example_provider) none 2 5 100)
      ((List.range 16).map (fun i => (⟨i, 1⟩, ['a'])))).chunk_.length = 15 ∧
    (Node.downloads_done example_constants
      (Node.make (some example_provider) none 2 5 100)
      ((List.range 16).map (fun i => (⟨i, 1⟩, ['a'])))).chunk_.head?
      = some ⟨⟨1, 1⟩, ['a']⟩ := by
  decide

/-! ## Theorems on the authorization endpoint -/

/-- C17 (the code at the failing input). A request `/dropbox?error=<e>` without
`code` parameter is answered by `HttpCallback::handle` of the factory with
`IHttpRequest::Ok` (200) and the default error page, not with 400; the handler
of the cloud browser answers the same request with `IHttpRequest::Bad`
(400). -/
theorem factory_answers_error_with_ok (e : Str) (description : Option Str)
    (resource : Str → Option Str) (node_not_found : Str) :
    HttpCallback.handle (fun _ => "dropbox".toList)
        ⟨"/dropbox".toList, none, some e, description⟩
      = (⟨200, .resource "default_error_html".toList⟩, none) ∧
    (HttpCallback.handle (fun _ => "dropbox".toList)
        ⟨"/dropbox".toList, none, some e, description⟩).1.code ≠ 400 ∧
    (CloudContext.HttpServerCallback.handle (fun _ => "dropbox".toList) resource
        node_not_found ⟨"/dropbox".toList, none, some e, description⟩).1.code = 400 := by
  have h1 : ¬ ("dropbox".toList = "favicon.ico".toList) := by decide
  have h2 : ¬ ("dropbox".toList = "static".toList) := by decide
  have h3 : ¬ ("/login".toList.isSuffixOf "/dropbox".toList = true) := by decide
  refine ⟨?_, ?_, ?_⟩
  · simp only [HttpCallback.handle, h1, h2, if_false, false_and, Option.isSome_some, if_true]
    rfl
  · simp only [HttpCallback.handle, h1, h2, if_false, false_and, Option.isSome_some, if_true]
    decide
  · simp only [CloudContext.HttpServerCallback.handle, h1, h2, h3, if_false, or_self]
    rfl

/-! ## Theorems on `YandexDisk::uploadFileAsync` -/

/-- C15 (the code at the failing input). When the request for the upload URL
fails with `err`, the response lambda of `upload_url` invokes the continuation
with `err` and does not return: the continuation calls `r->done(err)` and then
goes on to `upload(r, *ret.right(), ...)`, dereferencing the absent URL.  With
a continuation that returns (here one that does nothing), the response lambda
invokes it a second time, with the outcome of parsing the response body. -/
theorem upload_url_failure_not_once (failure : Int) (err : Error) :
    YandexDisk.upload_url_done failure (fun _ => none) YandexDisk.upload_continuation
        (some err) []
      = ([.continuation (.left err), .done (some err), .fault], false) ∧
    YandexDisk.upload_url_done failure (fun _ => none) (fun _ => ([], true)) (some err) []
      = ([.continuation (.left err), .continuation (.left ⟨failure, []⟩)], true) ∧
    YandexDisk.upload_url_done failure (fun _ => some "http://u".toList)
        (fun _ => ([], true)) (some err) []
      = ([.continuation (.left err), .continuation (.right "http://u".toList)], true) := by
  refine ⟨rfl, rfl, rfl⟩

/-! ## Theorems on `FileSystem::cleanup` -/

/-- The finish worker never calls `cancel()`. -/
theorem cleanup_only_finishes (fuel : Nat) :
    ∀ (pc : CleanupPc) (w : Worker) (schedule : List (List Interference)) (r : Nat),
      RequestCall.cancel r ∉ (cleanup_from fuel pc w schedule).1 := by
  induction fuel with
  | zero => intro pc w schedule r; simp [cleanup_from]
  | succ fuel ih =>
    intro pc w schedule r
    cases pc with
    | outer =>
      simp only [cleanup_from]
      split
      · exact ih _ _ _ r
      · simp
    | wait =>
      simp only [cleanup_from]
      split
      · exact ih _ _ _ r
      · cases schedule with
        | nil => simp
        | cons i rest => exact ih _ _ _ r
    | inner =>
      simp only [cleanup_from]
      cases hq : w.request_data_ with
      | nil => exact ih _ _ _ r
      | cons q queue =>
        simp only [List.mem_cons, not_or]
        exact ⟨by simp, ih _ _ _ r⟩

/-- C16 (the code at the failing input). Two runs of the finish worker that
starts with an empty queue.  In the first, request 1 is queued, and during
`finish()` of request 1 another thread queues request 2 and clears
`running_`: the worker drives request 2 to completion with `finish()` too, it
is not cancelled.  In the second, request 2 is queued and `running_` cleared
just after the inner loop has found the queue empty: the worker returns and
request 2 is left in the queue, neither finished nor cancelled. -/
theorem cleanup_finishes_after_stop :
    FileSystem.cleanup 20 ⟨true, []⟩ [[], [.add 1], [.add 2, .stop]]
      = ([.finish 1, .finish 2], ⟨false, []⟩, .returned) ∧
    FileSystem.cleanup 20 ⟨true, []⟩ [[], [.add 1], [], [.add 2, .stop]]
      = ([.finish 1], ⟨false, [2]⟩, .returned) := by
  decide

/-! ## Theorems on `GetItemRequest` -/

theorem split_slash_ne_nil (s : Str) : split_slash s ≠ [] := by
  cases s with
  | nil => simp [split_slash]
  | cons c cs =>
    unfold split_slash
    split
    · simp
    · split <;> simp

theorem split_slash_cons_slash (r : Str) : split_slash ('/' :: r) = [] :: split_slash r := by
  simp [split_slash]

/-- The first part of a string is what precedes its first slash, and the
other parts are those of what follows that slash. -/
theorem split_slash_eq (s : Str) :
    split_slash s = s.takeWhile (fun x => !(x == '/')) ::
      (match s.dropWhile (fun x => !(x == '/')) with
       | [] => []
       | _ :: r => split_slash r) := by
  induction s with
  | nil => simp [split_slash]
  | cons c cs ih =>
    by_cases hc : c = '/'
    · subst hc
      simp [split_slash]
    · have hb : (c == '/') = false := by simpa using hc
      have e1 : (c :: cs).takeWhile (fun x => !(x == '/'))
          = c :: cs.takeWhile (fun x => !(x == '/')) := by
        simp [List.takeWhile_cons, hb]
      have e2 : (c :: cs).dropWhile (fun x => !(x == '/'))
          = cs.dropWhile (fun x => !(x == '/')) := by
        simp [List.dropWhile_cons, hb]
      have hs : split_slash (c :: cs)
          = (match split_slash cs with
             | s :: ss => (c :: s) :: ss
             | [] => [[c]]) := by
        rw [split_slash, if_neg hc]
      rw [e1, e2, hs, ih]

theorem name_eq_takeWhile (path : Str) :
    (match find_first_of path '/' with
     | none => path
     | some it => path.take it) = path.takeWhile (fun x => !(x == '/')) := by
  have h := @List.takeWhile_eq_take_findIdx_not _ path (fun x => !(x == '/'))
  simp only [Bool.not_not] at h
  unfold find_first_of
  split
  · rename_i heq
    split at heq
    · cases heq
    · rename_i hlt
      have hlen : path.findIdx (fun x => x == '/') = path.length :=
        Nat.le_antisymm (List.findIdx_le_length _) (Nat.le_of_not_lt hlt)
      rw [h, hlen, List.take_length]
  · rename_i it heq
    split at heq
    · cases heq
      exact h.symm
    · cases heq

theorem rest_eq_dropWhile (path : Str) :
    (match find_first_of path '/' with
     | none => []
     | some it => path.drop it) = path.dropWhile (fun x => !(x == '/')) := by
  have h := @List.dropWhile_eq_drop_findIdx_not _ path (fun x => !(x == '/'))
  simp only [Bool.not_not] at h
  unfold find_first_of
  split
  · rename_i heq
    split at heq
    · cases heq
    · rename_i hlt
      have hlen : path.findIdx (fun x => x == '/') = path.length :=
        Nat.le_antisymm (List.findIdx_le_length _) (Nat.le_of_not_lt hlt)
      rw [h, hlen, List.drop_length]
  · rename_i it heq
    split at heq
    · cases heq
      exact h.symm
    · cases heq

theorem dropWhile_not_slash (path : Str) :
    path.dropWhile (fun x => !(x == '/')) = [] ∨
    ∃ r, path.dropWhile (fun x => !(x == '/')) = '/' :: r := by
  induction path with
  | nil => exact Or.inl rfl
  | cons c cs ih =>
    by_cases hc : c = '/'
    · subst hc
      exact Or.inr ⟨cs, by simp [List.dropWhile_cons]⟩
    · have hb : (c == '/') = false := by simpa using hc
      have e2 : (c :: cs).dropWhile (fun x => !(x == '/'))
          = cs.dropWhile (fun x => !(x == '/')) := by
        simp [List.dropWhile_cons, hb]
      rw [e2]
      exact ih

theorem path_segments_nil : path_segments [] = [] := by decide

theorem path_segments_slash : path_segments ['/'] = [] := by decide

/-- The segments of `/` followed by a non-empty `path`: the part of `path`
before its first slash, then the segments of the rest. -/
theorem path_segments_cons (path : Str) (hne : path ≠ []) :
    path_segments ('/' :: path)
      = path.takeWhile (fun x => !(x == '/'))
          :: path_segments (path.dropWhile (fun x => !(x == '/'))) := by
  unfold path_segments
  simp only [List.drop_succ_cons, List.drop_zero]
  rw [split_slash_eq path]
  rcases dropWhile_not_slash path with h | ⟨r, h⟩
  · rw [h]
    simp only [List.drop_nil]
    have htw : path.takeWhile (fun x => !(x == '/')) = path := by
      have := List.takeWhile_append_dropWhile (fun x => !(x == '/')) path
      rw [h, List.append_nil] at this
      exact this
    rw [htw]
    have h1 : ([path] : List Str).getLast? = some path := rfl
    have h2 : (split_slash []).getLast? = some [] := rfl
    rw [h1, h2, if_neg (by simpa using hne), if_pos rfl]
    rfl
  · rw [h]
    simp only [List.drop_succ_cons, List.drop_zero]
    obtain ⟨a, l, hal⟩ := List.exists_cons_of_ne_nil (split_slash_ne_nil r)
    rw [hal]
    have h1 : (path.takeWhile (fun x => !(x == '/')) :: a :: l).getLast?
        = (a :: l).getLast? := by
      simp [List.getLast?_cons_cons]
    rw [h1]
    split
    · rfl
    · rfl

theorem work_none (listDirectory : Item → EitherError (List Item)) (not_found : Error)
    (fuel : Nat) (p : Str) :
    GetItemRequest.work listDirectory not_found (fuel + 1) none p
      = some (.left not_found, []) := by
  simp [GetItemRequest.work]

/-- With more fuel than the path is long, `work` does the reference walk along
the segments of the path. -/
theorem work_eq_reference_walk (listDirectory : Item → EitherError (List Item))
    (not_found : Error) (fuel : Nat) :
    ∀ (item : Item) (p : Str), (p = [] ∨ ∃ t, p = '/' :: t) → p.length < fuel →
      GetItemRequest.work listDirectory not_found fuel (some item) p
        = some (reference_walk listDirectory not_found item (path_segments p)) := by
  induction fuel with
  | zero => intro item p _ h; omega
  | succ fuel ih =>
    intro item p hp hlen
    rcases hp with hp | ⟨t, hp⟩
    · subst hp
      simp [GetItemRequest.work, path_segments_nil, reference_walk]
    · subst hp
      cases t with
      | nil => simp [GetItemRequest.work, path_segments_slash, reference_walk]
      | cons c cs =>
        have hcond : ¬ (('/' :: c :: cs).isEmpty = true ∨ ('/' :: c :: cs).length = 1) := by
          simp
        rw [path_segments_cons (c :: cs) (by simp)]
        unfold GetItemRequest.work
        simp only [if_neg hcond, List.drop_succ_cons, List.drop_zero]
        rw [name_eq_takeWhile, rest_eq_dropWhile]
        unfold reference_walk
        cases hl : listDirectory item with
        | left e => rfl
        | right items =>
          simp only [GetItemRequest.getItem]
          have hrest_len : ((c :: cs).dropWhile (fun x => !(x == '/'))).length < fuel := by
            have h1 : ((c :: cs).dropWhile (fun x => !(x == '/'))).length
                ≤ (c :: cs).length := by
              have := List.takeWhile_append_dropWhile (fun x => !(x == '/')) (c :: cs)
              have h2 := congrArg List.length this
              rw [List.length_append] at h2
              omega
            simp only [List.length_cons] at hlen h1
            omega
          cases hf : items.find? (fun i => decide (i.filename
              = (c :: cs).takeWhile (fun x => !(x == '/')))) with
          | none =>
            cases fuel with
            | zero => omega
            | succ n => rw [work_none]; rfl
          | some next =>
            rw [ih next _ (by
              rcases dropWhile_not_slash (c :: cs) with h | ⟨r, h⟩
              · exact Or.inl h
              · exact Or.inr ⟨r, h⟩) hrest_len]
            rfl

/-- C18. For every listing function and every path, `GetItemRequest` resolves
as the reference walk and with the same listings: an empty path or one that
does not start with `/` fails with `invalid_path` and lists nothing, `/`
resolves to the root, any other path is walked segment by segment (first
match of the filename, `not_found` when a segment has no match, the error of
a listing that fails); the walk ends for every path (the model never runs
out of fuel). -/
theorem get_item_resolves_as_reference (listDirectory : Item → EitherError (List Item))
    (root : Item) (invalid_path not_found : Error) (path : Str) :
    GetItemRequest.resolve listDirectory root invalid_path not_found path
      = some (reference_get_item listDirectory root invalid_path not_found path) ∧
    GetItemRequest.resolve listDirectory root invalid_path not_found []
      = some (.left invalid_path, []) ∧
    GetItemRequest.resolve listDirectory root invalid_path not_found ['/']
      = some (.right root, []) := by
  refine ⟨?_, by simp [GetItemRequest.resolve], ?_⟩
  · unfold GetItemRequest.resolve reference_get_item
    cases path with
    | nil => simp
    | cons c cs =>
      by_cases hc : c = '/'
      · subst hc
        have hcond : ¬ (('/' :: cs).isEmpty = true ∨ ('/' :: cs).head? ≠ some '/') := by
          simp
        rw [if_neg hcond]
        simp only [if_true]
        exact work_eq_reference_walk listDirectory not_found _ root ('/' :: cs)
          (Or.inr ⟨cs, rfl⟩) (Nat.lt_succ_self _)
      · have hcond : ((c :: cs).isEmpty = true ∨ (c :: cs).head? ≠ some '/') := by
          right
          simpa using hc
        rw [if_pos hcond]
        simp [hc]
  · simp [GetItemRequest.resolve, GetItemRequest.work]

/-! ## Theorems on `FileSystem::readdir` -/

/-- A pointer to a node that has a provider points into the object table. -/
theorem ptr_valid_of_provider (fs : FileSystem) (ptr : NodePtr) (p : Provider)
    (h : (fs.deref ptr).provider_ = some p) : ∃ a, ptr = some a ∧ a < fs.objects.length := by
  cases ptr with
  | none => simp [FileSystem.deref, Node.empty] at h
  | some a =>
    refine ⟨a, rfl, ?_⟩
    by_contra hlt
    unfold FileSystem.deref at h
    simp only [] at h
    rw [List.getD_eq_default _ _ (Nat.le_of_not_lt hlt)] at h
    simp [Node.empty] at h

theorem deref_update_same (fs : FileSystem) (a : Nat) (f : Node → Node)
    (ha : a < fs.objects.length) :
    (fs.update (some a) f).deref (some a) = f (fs.deref (some a)) := by
  unfold FileSystem.update FileSystem.deref
  simp only [List.getD_eq_getElem?_getD]
  rw [List.getElem?_set_self ha]
  rfl

theorem deref_update_other (fs : FileSystem) (a b : Nat) (f : Node → Node) (hab : a ≠ b) :
    (fs.update (some a) f).deref (some b) = fs.deref (some b) := by
  unfold FileSystem.update FileSystem.deref
  simp only [List.getD_eq_getElem?_getD]
  rw [List.getElem?_set_ne hab]

theorem readdir_uncached (K : Constants) (now cb : Nat) (fs : FileSystem) (node : FileId)
    (p : Provider) (i : Item)
    (hdir : find fs.node_directory_ node = none)
    (hp : (fs.deref (fs.get node)).provider_ = some p)
    (hi : (fs.deref (fs.get node)).item_ = some i) :
    fs.readdir K now (ListCallback.run K now (.user cb)) (.user cb) node
      = (fs.update (fs.get node) (fun x => { x with list_directory_pending_ := true }),
         [.listDirectorySimpleAsync p i node (fs.get node) false (.user cb)]) := by
  unfold FileSystem.readdir
  simp only [hdir, hp, hi]
  simp

theorem deref_alloc_new (fs : FileSystem) (nd : Node) :
    (fs.alloc nd).1.deref (some fs.objects.length) = nd := by
  unfold FileSystem.alloc FileSystem.deref
  simp

/-- The completion of a failed first listing: one callback with the synthetic
`authorize.html` node, and the directory cache and the timestamps as they
were. -/
theorem readdir_done_failure (K : Constants) (now cb : Nat) (fs : FileSystem)
    (node : FileId) (nd : NodePtr) (p : Provider) (err : Error)
    (hp : (fs.deref nd).provider_ = some p) :
    (fs.list_directory_done K now node nd false (.user cb) (.left err)).2
      = [.callback cb (.nodes (.right [some fs.objects.length]))] ∧
    (fs.list_directory_done K now node nd false (.user cb) (.left err)).1.deref
        (some fs.objects.length)
      = Node.make (some p) (some (auth_item (.made fs.items_made_) p.authorizeLibraryUrl))
          node ((find fs.auth_node_ p.name).getD 0)
          (auth_item (.made fs.items_made_) p.authorizeLibraryUrl).size ∧
    (fs.list_directory_done K now node nd false (.user cb) (.left err)).1.node_directory_
      = fs.node_directory_ ∧
    (fs.list_directory_done K now node nd false (.user cb) (.left err)).1.node_timestamp_
      = fs.node_timestamp_ := by
  obtain ⟨a, hnd, ha⟩ := ptr_valid_of_provider fs nd p hp
  subst hnd
  unfold FileSystem.list_directory_done FileSystem.readdir_done
  simp only [hp, ListCallback.run, Bool.not_false, if_true]
  split
  · refine ⟨rfl, ?_, rfl, rfl⟩
    exact deref_alloc_new _ _
  · refine ⟨rfl, ?_, rfl, rfl⟩
    rw [deref_update_other _ a _ _ (Nat.ne_of_lt ha)]
    exact deref_alloc_new _ _

/-- C11. For a provider directory inode without cached children, `readdir`
does not invoke the callback itself and requests one listing; when that
listing fails, its completion invokes the callback exactly once, with a
successful list of one node: a fresh node of that provider whose item is the
synthetic `authorize.html` (id `AUTH_ITEM_ID`) under the inode.  The directory
cache and the refresh timestamps are left as they were, so both stay unset for
the inode. -/
theorem readdir_first_listing_fails (K : Constants) (now later cb : Nat) (fs : FileSystem)
    (node : FileId) (p : Provider) (i : Item) (err : Error)
    (hdir : find fs.node_directory_ node = none)
    (hp : (fs.deref (fs.get node)).provider_ = some p)
    (hi : (fs.deref (fs.get node)).item_ = some i) :
    (fs.readdir K now (ListCallback.run K now (.user cb)) (.user cb) node).2
      = [.listDirectorySimpleAsync p i node (fs.get node) false (.user cb)] ∧
    ((fs.readdir K now (ListCallback.run K now (.user cb)) (.user cb) node).1.list_directory_done
        K later node (fs.get node) false (.user cb) (.left err)).2
      = [.callback cb (.nodes (.right [some fs.objects.length]))] ∧
    (((fs.readdir K now (ListCallback.run K now (.user cb)) (.user cb) node).1.list_directory_done
        K later node (fs.get node) false (.user cb) (.left err)).1.deref
        (some fs.objects.length)).provider_ = some p ∧
    (((fs.readdir K now (ListCallback.run K now (.user cb)) (.user cb) node).1.list_directory_done
        K later node (fs.get node) false (.user cb) (.left err)).1.deref
        (some fs.objects.length)).item_
      = some ⟨.made fs.items_made_, "authorize.html".toList, AUTH_ITEM_ID,
          (authorize_file p.authorizeLibraryUrl).length, .Unknown⟩ ∧
    (((fs.readdir K now (ListCallback.run K now (.user cb)) (.user cb) node).1.list_directory_done
        K later node (fs.get node) false (.user cb) (.left err)).1.deref
        (some fs.objects.length)).parent_ = node ∧
    ((fs.readdir K now (ListCallback.run K now (.user cb)) (.user cb) node).1.list_directory_done
        K later node (fs.get node) false (.user cb) (.left err)).1.node_directory_
      = fs.node_directory_ ∧
    ((fs.readdir K now (ListCallback.run K now (.user cb)) (.user cb) node).1.list_directory_done
        K later node (fs.get node) false (.user cb) (.left err)).1.node_timestamp_
      = fs.node_timestamp_ ∧
    find ((fs.readdir K now (ListCallback.run K now (.user cb)) (.user cb) node).1.list_directory_done
        K later node (fs.get node) false (.user cb) (.left err)).1.node_directory_ node
      = none := by
  obtain ⟨a, hnd, ha⟩ := ptr_valid_of_provider fs (fs.get node) p hp
  rw [readdir_uncached K now cb fs node p i hdir hp hi]
  simp only []
  have hp' : ((fs.update (fs.get node)
      (fun x => { x with list_directory_pending_ := true })).deref (fs.get node)).provider_
      = some p := by
    rw [hnd, deref_update_same fs a _ ha, ← hnd]
    exact hp
  obtain ⟨h1, h2, h3, h4⟩ := readdir_done_failure K later cb
    (fs.update (fs.get node) (fun x => { x with list_directory_pending_ := true }))
    node (fs.get node) p err hp'
  have hlen : (fs.update (fs.get node)
      (fun x => { x with list_directory_pending_ := true })).objects.length
      = fs.objects.length := by
    rw [hnd]; simp [FileSystem.update]
  have hmade : (fs.update (fs.get node)
      (fun x => { x with list_directory_pending_ := true })).items_made_ = fs.items_made_ := by
    rw [hnd]; rfl
  have hdirs : (fs.update (fs.get node)
      (fun x => { x with list_directory_pending_ := true })).node_directory_
      = fs.node_directory_ := by
    rw [hnd]; rfl
  have htime : (fs.update (fs.get node)
      (fun x => { x with list_directory_pending_ := true })).node_timestamp_
      = fs.node_timestamp_ := by
    rw [hnd]; rfl
  rw [hlen] at h1 h2
  rw [hmade] at h2
  refine ⟨trivial, h1, ?_, ?_, ?_, ?_, ?_, ?_⟩
  · rw [h2]; rfl
  · rw [h2]; rfl
  · rw [h2]; rfl
  · rw [h3, hdirs]
  · rw [h4, htime]
  · rw [h3, hdirs]; exact hdir

/-- Witness of C11: the root of the handle `A` (inode 2) of the freshly
mounted filesystem has not been listed; when its first listing fails, the
callback gets the one-element list with the new node (object 4). -/
theorem readdir_first_listing_fails_witness :
    ((example_mount.readdir example_constants 0
        (ListCallback.run example_constants 0 (.user 7)) (.user 7) 2).1.list_directory_done
        example_constants 1 2 (example_mount.get 2) false (.user 7)
        (.left ⟨401, []⟩)).2
      = [.callback 7 (.nodes (.right [some 4]))] :=
  (readdir_first_listing_fails example_constants 0 1 7 example_mount 2 example_provider
    ⟨.made 1, "A".toList, [], 2 ^ 64 - 1, .Directory⟩ ⟨401, []⟩
    (by decide) (by decide) (by decide)).2.1

/-- A failed background listing leaves the cached children and the refresh
timestamps as they were. -/
theorem readdir_done_reported_failure (K : Constants) (now cb : Nat) (fs : FileSystem)
    (node : FileId) (nd : NodePtr) (err : Error) :
    (fs.list_directory_done K now node nd true (.user cb) (.left err)).1.node_directory_
      = fs.node_directory_ ∧
    (fs.list_directory_done K now node nd true (.user cb) (.left err)).1.node_timestamp_
      = fs.node_timestamp_ := by
  unfold FileSystem.list_directory_done FileSystem.readdir_done
  simp only [Bool.not_true, Bool.false_eq_true, if_false]
  split
  · exact ⟨rfl, rfl⟩
  · cases nd with
    | none => exact ⟨rfl, rfl⟩
    | some a => exact ⟨rfl, rfl⟩

/-- The function `add` on a key that `node_id_map_` does not hold: the new node
gets the inode `next_`, the parent it was given, and is entered into the inode
table under that inode; the counter advances by one. -/
theorem add_fresh (fs : FileSystem) (p : Option Provider) (parent : FileId) (i : Item)
    (h : find fs.node_id_map_ (FileSystem.id p i) = none) :
    (fs.add p parent i).2 = some fs.objects.length ∧
    (fs.add p parent i).1.next_ = (fs.next_ + 1) % UINT64 ∧
    ((fs.add p parent i).1.deref (fs.add p parent i).2).inode_ = fs.next_ ∧
    ((fs.add p parent i).1.deref (fs.add p parent i).2).parent_ = parent ∧
    (fs.add p parent i).1.get fs.next_ = (fs.add p parent i).2 := by
  simp only [FileSystem.add, h, FileSystem.alloc, FileSystem.set_path, FileSystem.get]
  by_cases hpar : parent > 0
  · simp only [hpar, if_true]
    cases hf : find (assign fs.node_map_ fs.next_ fs.objects.length) parent with
    | none =>
      simp only [FileSystem.deref, find_assign_self]
      simp [Node.make]
    | some b =>
      simp only [FileSystem.deref, FileSystem.update, find_assign_self]
      simp [Node.make]
  · simp only [hpar, if_false, FileSystem.deref, find_assign_self]
    simp [Node.make]

/-- The function `add` on a key that `node_id_map_` holds: the node of that key
is returned and nothing changes, in particular not the counter. -/
theorem add_known (fs : FileSystem) (p : Option Provider) (parent : FileId) (i : Item)
    (a : Nat) (h : find fs.node_id_map_ (FileSystem.id p i) = some a) :
    fs.add p parent i = (fs, some a) := by
  simp only [FileSystem.add, h]

/-- C13 (the code at the failing input). On the filesystem mounted under the
labels `A` and `B` the root has inode 1 and parent 0, and the counter stands at
5.  The call `rename(2, "authorize.html", 2, "authorize.html", cb)` requests the
listing of inode 2; when that listing fails, `readdir` hands out the synthetic
node with the inode `auth_node_["dropbox"]`, which is 0 because the constructor
stored the inode under the label, and the completion of `rename` enters that
node into the inode table under inode 0.  Then `mknod(0, "x")` finds a provider
at inode 0 and adds a node with parent 0: inode 5 is in the inode table, is not
the root, and has parent 0.  No null pointer is dereferenced on the way. -/
theorem inode_table_non_root_parent_zero :
    (example_mount.deref (example_mount.get 1)).inode_ = 1 ∧
    (example_mount.deref (example_mount.get 1)).parent_ = 0 ∧
    example_mount.next_ = 5 ∧
    find example_mount.auth_node_ "A".toList = some 3 ∧
    find example_mount.auth_node_ "dropbox".toList = none ∧
    example_auth_rename.2 =
      [.listDirectorySimpleAsync example_provider
        ⟨.made 1, "A".toList, [], example_constants.UnknownSize, .Directory⟩ 2 (some 1) false
        (.lookup "authorize.html".toList
          (.rename 2 "authorize.html".toList 2 "authorize.html".toList 9))] ∧
    example_auth_renamed.2 =
      [.callback 9 (.item (.right (auth_item (.made 5) "http://auth".toList)))] ∧
    example_auth_renamed.1.get 0 = some 5 ∧
    (example_auth_renamed.1.deref (some 5)).inode_ = 0 ∧
    (example_auth_renamed.1.deref (some 5)).parent_ = 2 ∧
    (example_auth_renamed.1.mknod 0 "x".toList).2 = 5 ∧
    (example_auth_renamed.1.mknod 0 "x".toList).1.get 5 = some 6 ∧
    ((example_auth_renamed.1.mknod 0 "x".toList).1.deref (some 6)).inode_ = 5 ∧
    ((example_auth_renamed.1.mknod 0 "x".toList).1.deref (some 6)).parent_ = 0 ∧
    (example_auth_renamed.1.mknod 0 "x".toList).1.next_ = 6 ∧
    (example_auth_renamed.1.mknod 0 "x".toList).1.fault_ = false := by
  decide

/-! ## Theorems on `AmazonS3::endpoint` -/

/-- With an empty rewritten endpoint and a configured (non-empty) endpoint,
`endpoint()` is `s3_endpoint() + "/" + bucket()`. -/
theorem endpoint_configured (s : AmazonS3) (h1 : s.rewritten_endpoint_ = [])
    (h2 : s.s3_endpoint_ ≠ []) :
    s.endpoint = s.s3_endpoint ++ "/".toList ++ s.bucket := by
  cases he : s.s3_endpoint_ with
  | nil => exact absurd he h2
  | cons c cs => simp [AmazonS3.endpoint, AmazonS3.s3_endpoint, AmazonS3.bucket, h1, he]

/-- C29 (the code at the failing input). For credentials without endpoint
(unpacked from a token with the members `username`, `password` and `bucket`)
and an empty rewritten endpoint, `endpoint()` is `"/" + bucket`: it reads the
member `s3_endpoint_`, which is empty, and not `s3_endpoint()`, which is
`https://s3.amazonaws.com`. -/
theorem endpoint_without_default (u p b : Str) :
    (AmazonS3.unpackCredentials ⟨[], [], [], [], [], []⟩
      [("username".toList, u), ("password".toList, p), ("bucket".toList, b)]).endpoint
      = '/' :: b ∧
    (AmazonS3.unpackCredentials ⟨[], [], [], [], [], []⟩
      [("username".toList, u), ("password".toList, p), ("bucket".toList, b)]).s3_endpoint
      ++ "/".toList ++
    (AmazonS3.unpackCredentials ⟨[], [], [], [], [], []⟩
      [("username".toList, u), ("password".toList, p), ("bucket".toList, b)]).bucket
      = "https://s3.amazonaws.com/".toList ++ b ∧
    (AmazonS3.unpackCredentials ⟨[], [], [], [], [], []⟩
      [("username".toList, u), ("password".toList, p), ("bucket".toList, b)]).endpoint
      ≠ "https://s3.amazonaws.com/".toList ++ b := by
  have e1 : ¬ ("username".toList = "bucket".toList) := by decide
  have e2 : ¬ ("password".toList = "bucket".toList) := by decide
  have e3 : ¬ ("username".toList = "endpoint".toList) := by decide
  have e4 : ¬ ("password".toList = "endpoint".toList) := by decide
  have e5 : ¬ ("bucket".toList = "endpoint".toList) := by decide
  have hb : asString [("username".toList, u), ("password".toList, p), ("bucket".toList, b)]
      "bucket".toList = b := by
    simp only [asString, find, e1, e2, if_false, if_true, Option.getD_some]
  have he : asString [("username".toList, u), ("password".toList, p), ("bucket".toList, b)]
      "endpoint".toList = [] := by
    simp only [asString, find, e3, e4, e5, if_false, Option.getD_none]
  refine ⟨?_, ?_, ?_⟩
  · simp only [AmazonS3.endpoint, AmazonS3.unpackCredentials, hb, he]
    rfl
  · simp only [AmazonS3.s3_endpoint, AmazonS3.bucket, AmazonS3.unpackCredentials, hb, he]
    rfl
  · simp only [AmazonS3.endpoint, AmazonS3.unpackCredentials, hb, he]
    intro h
    have h2 : "https://s3.amazonaws.com/".toList ++ b
        = 'h' :: ("ttps://s3.amazonaws.com/".toList ++ b) := rfl
    have h3 : "/".toList ++ b = '/' :: b := rfl
    rw [h2, List.nil_append, h3] at h
    exact absurd (List.cons.inj h).1 (by decide)

/-! ## Theorems on `mp4upload::radix` -/

/-- With base 1 and `n > 0` the loop of `radix` never ends: `n % 1` is `0` and
`n / 1` is `n`. -/
theorem radix_loop_base_one (fuel : Nat) :
    ∀ (n : Nat) (result : Str), n > 0 → mp4upload.radix_loop fuel n 1 result = none := by
  induction fuel with
  | zero => intro n result _; rfl
  | succ fuel ih =>
    intro n result hn
    simp only [mp4upload.radix_loop, hn, if_true, Nat.div_one]
    exact ih n _ hn

/-- With a base of at least 2 the loop of `radix` ends within `n + 1` tests of
its condition, and with a non-empty result when `n > 0`. -/
theorem radix_loop_terminates (base : Nat) (hb : 2 ≤ base) (fuel : Nat) :
    ∀ (n : Nat) (result : Str), n < fuel →
      ∃ r, mp4upload.radix_loop fuel n base result = some r ∧ (n > 0 ∨ result ≠ [] → r ≠ []) := by
  induction fuel with
  | zero => intro n result h; omega
  | succ fuel ih =>
    intro n result h
    by_cases hn : n > 0
    · simp only [mp4upload.radix_loop, hn, if_true]
      have hdiv : n / base < n := Nat.div_lt_self hn hb
      obtain ⟨r, hr, hne⟩ := ih (n / base)
        (result ++ [mp4upload.numerals.getD (n % base) ' ']) (by omega)
      exact ⟨r, hr, fun _ => hne (Or.inr (by simp))⟩
    · simp only [mp4upload.radix_loop, hn, if_false]
      refine ⟨result, rfl, fun h => ?_⟩
      cases h with
      | inl h1 => exact h1.elim
      | inr h2 => exact h2

/-- For every base from 2 to 36 `radix` returns, and returns a non-empty string. -/
theorem radix_terminates (n base : Nat) (h2 : 2 ≤ base) (h36 : base ≤ 36) :
    ∃ s, mp4upload.radix (n + 1) n base = some (.value s) ∧ s ≠ [] := by
  obtain ⟨r, hr, hne⟩ := radix_loop_terminates base h2 (n + 1) n [] (Nat.lt_succ_self n)
  have hb : ¬ (base = 0 ∨ base > 36) := by omega
  simp only [mp4upload.radix, hb, if_false, hr]
  cases r with
  | nil => exact ⟨"0".toList, rfl, by decide⟩
  | cons c cs => exact ⟨(c :: cs).reverse, rfl, by simp⟩

/-- C30 (the code at the failing input). Base 1 is not rejected by `radix`
(only 0 and bases above 36 are), and `radix(1, 1)` never returns: however many
times the loop condition is tested, the loop is still running.  The same
holds for `radix(n, 1)` with any `n > 0` (helper theorem
`radix_loop_base_one`); `radix(0, 1)` returns `"0"`. -/
theorem radix_base_one_diverges (fuel : Nat) :
    mp4upload.radix fuel 1 1 = none ∧
    mp4upload.radix fuel 1 1 ≠ some .invalid_radix_base ∧
    mp4upload.radix (fuel + 1) 0 1 = some (.value "0".toList) ∧
    mp4upload.radix 2 1 2 = some (.value "1".toList) := by
  have h := radix_loop_base_one fuel 1 [] (by decide)
  have hb : ¬ ((1 : Nat) = 0 ∨ 1 > 36) := by decide
  have h1 : mp4upload.radix fuel 1 1 = none := by
    simp only [mp4upload.radix, hb, if_false, h]
  refine ⟨h1, ?_, ?_, by decide⟩
  · rw [h1]; simp
  · simp [mp4upload.radix, mp4upload.radix_loop]

/-! ## Theorems on `LoopImpl` -/

/-- The function `clear()` never calls `cancel()` through a null pointer. -/
theorem clear_loop_no_null (pending : List (Nat × Option Nat)) :
    LoopCall.cancel_null ∉ LoopImpl.clear_loop pending := by
  induction pending with
  | nil => simp [LoopImpl.clear_loop]
  | cons e rest ih =>
    obtain ⟨tag, request⟩ := e
    cases request with
    | none => simpa [LoopImpl.clear_loop] using ih
    | some r => simpa [LoopImpl.clear_loop] using ih

/-- C27 (the code at the failing input). On a fresh loop, `fulfill(7, f)`
finds no entry for tag 7 and inserts `{7, nullptr}`; a following `cancel(7)`
finds that entry, removes it and calls `cancel()` through the null pointer.
When `add(7, r)` comes in between, it removes the entry and `cancel(7)` does
nothing; `clear()` on the state after `fulfill(7, f)` skips the null
pointer. -/
theorem cancel_after_fulfill_null :
    (LoopImpl.fulfill ⟨[], [], true⟩ 7 0).pending_ = [(7, none)] ∧
    (LoopImpl.run ⟨[], [], true⟩ [.fulfill 7 0, .cancel 7]).2 = [.cancel_null] ∧
    (LoopImpl.run ⟨[], [], false⟩ [.fulfill 7 0, .cancel 7]).2 = [.cancel_null] ∧
    (LoopImpl.run ⟨[], [], true⟩ [.fulfill 7 0, .add 7 1, .cancel 7]).2 = [] ∧
    (LoopImpl.run ⟨[], [], true⟩ [.add 7 1, .cancel 7]).2 = [.cancel 1] ∧
    (LoopImpl.clear (LoopImpl.fulfill ⟨[], [], true⟩ 7 0)).2.1 = [] := by
  decide

/-! ## Theorems on `FileSystem::invalidate` -/

/-- C25 (the code at the failing input). In the filesystem with the listed
directory `d1` (inode 5) that holds the file `b` (inode 8), `invalidate(5)`
removes inode 8 from the inode table and the entry of 5 from the directory
cache, and leaves the other entries of these two tables as they were.  In the
path index it erases the entry `""` of the synthetic root (the key is the
path of the fresh `Node()` handed to `set`), and the path `/A/d1/b` of the
descendant stays and still maps to inode 8. -/
theorem invalidate_erases_root_path :
    find example_fs.node_path_to_id_ [] = some 1 ∧
    find example_fs.node_path_to_id_ "/A/d1/b".toList = some 8 ∧
    (FileSystem.invalidate 10 example_fs 5).node_map_
      = eraseKey example_fs.node_map_ 8 ∧
    (FileSystem.invalidate 10 example_fs 5).node_directory_
      = eraseKey example_fs.node_directory_ 5 ∧
    find (FileSystem.invalidate 10 example_fs 5).node_path_to_id_ [] = none ∧
    find (FileSystem.invalidate 10 example_fs 5).node_path_to_id_ "/A/d1/b".toList
      = some 8 ∧
    (FileSystem.invalidate 10 example_fs 5).node_path_to_id_
      = eraseKey example_fs.node_path_to_id_ [] ∧
    (FileSystem.invalidate 10 example_fs 5).fault_ = false ∧
    FileSystem.invalidate 10 example_fs 5 = FileSystem.invalidate 3 example_fs 5 := by
  decide

/-! ## Theorems on the inode of the synthetic `authorize.html` node -/

/-- C26 (the code at the failing input). On the filesystem mounted with two
`dropbox` handles under the labels `A` and `B` the constructor assigned inode 3
to the `authorize.html` child of `A` and recorded it under the labels
(`auth_node_["A"]`, and `auth_node_["B"]` as well, since `add` found the key of
the first child again).  After a failed first listing of the root of `A`
(inode 2) and of the root of `B` (inode 4), the node handed out carries inode
`auth_node_["dropbox"]`, which is 0: not the inode assigned by the
constructor, and not an inode of the inode table.  Only when the label is the
name of the provider kind does the node carry the inode of the constructor. -/
theorem auth_node_inode_zero :
    find example_mount.auth_node_ "A".toList = some 3 ∧
    find example_mount.auth_node_ "B".toList = some 3 ∧
    (example_mount.deref (example_mount.get 3)).parent_ = 2 ∧
    (failed_first_listing example_mount 2).2 = [.callback 7 (.nodes (.right [some 4]))] ∧
    ((failed_first_listing example_mount 2).1.deref (some 4)).inode_ = 0 ∧
    ((failed_first_listing example_mount 2).1.deref (some 4)).parent_ = 2 ∧
    (failed_first_listing example_mount 2).1.get 0 = none ∧
    (failed_first_listing example_mount 4).2 = [.callback 7 (.nodes (.right [some 4]))] ∧
    ((failed_first_listing example_mount 4).1.deref (some 4)).inode_ = 0 ∧
    ((failed_first_listing example_mount 4).1.deref (some 4)).parent_ = 4 ∧
    find example_mount_named.auth_node_ "dropbox".toList = some 3 ∧
    (failed_first_listing example_mount_named 2).2
      = [.callback 7 (.nodes (.right [some 3]))] ∧
    ((failed_first_listing example_mount_named 2).1.deref (some 3)).inode_ = 3 := by
  decide

/-! ## Theorems on `Buffer` -/

theorem continue_download_small (b : Buffer) (h : b.range_.size_ < CHUNK_SIZE) :
    b.continue_download none = (b, []) := by
  simp [Buffer.continue_download, h, Buffer.done]

theorem continue_download_next (s z : Nat) (d dn ab : Bool) (hz : CHUNK_SIZE ≤ z)
    (h : s + z < UINT64) :
    Buffer.continue_download ⟨[], ⟨s, z⟩, d, dn, ab⟩ none
      = (⟨[], ⟨s + CHUNK_SIZE, z - CHUNK_SIZE⟩, d, dn, ab⟩,
         [.download ⟨s + CHUNK_SIZE, min (z - CHUNK_SIZE) CHUNK_SIZE⟩]) := by
  have h1 : ¬ (z < CHUNK_SIZE) := by omega
  have h2 : add64 s CHUNK_SIZE = s + CHUNK_SIZE := by
    unfold add64; exact Nat.mod_eq_of_lt (by omega)
  have h3 : sub64 z CHUNK_SIZE = z - CHUNK_SIZE := by
    unfold sub64
    have hc : CHUNK_SIZE % UINT64 = CHUNK_SIZE := by decide
    rw [hc]
    have : z + UINT64 - CHUNK_SIZE = (z - CHUNK_SIZE) + UINT64 := by omega
    rw [this, Nat.add_mod_right]
    exact Nat.mod_eq_of_lt (by omega)
  have h4 : (2 * 0) % UINT64 < CHUNK_SIZE := by decide
  simp only [Buffer.continue_download, Option.isSome_none, Bool.false_eq_true, false_or, h1,
    if_false, h2, h3, Buffer.size, List.length_nil, h4, if_true, Buffer.run_download]

theorem drive_eq (fuel : Nat) :
    ∀ (s z : Nat) (d dn ab : Bool), s + z < UINT64 → z / CHUNK_SIZE < fuel →
      Buffer.drive fuel ⟨[], ⟨s, z⟩, d, dn, ab⟩
        = (List.range (z / CHUNK_SIZE)).map (fun k =>
            BufferCall.download ⟨s + (k + 1) * CHUNK_SIZE,
              min (z - (k + 1) * CHUNK_SIZE) CHUNK_SIZE⟩) := by
  have hpos : 0 < CHUNK_SIZE := by decide
  induction fuel with
  | zero => intro s z d dn ab _ h; exact absurd h (Nat.not_lt_zero _)
  | succ fuel ih =>
    intro s z d dn ab hs hf
    by_cases hz : z < CHUNK_SIZE
    · have h0 : z / CHUNK_SIZE = 0 := Nat.div_eq_of_lt hz
      rw [h0]
      have hc := continue_download_small ⟨[], ⟨s, z⟩, d, dn, ab⟩ hz
      simp only [Buffer.drive, hc, List.range_zero, List.map_nil]
    · have hz' : CHUNK_SIZE ≤ z := by omega
      have hdiv : z / CHUNK_SIZE = (z - CHUNK_SIZE) / CHUNK_SIZE + 1 := by
        have := Nat.sub_add_cancel hz'
        conv_lhs => rw [← this]
        exact Nat.add_div_right _ hpos
      simp only [Buffer.drive, continue_download_next s z d dn ab hz' hs]
      rw [ih (s + CHUNK_SIZE) (z - CHUNK_SIZE) d dn ab (by omega) (by omega), hdiv,
        List.range_succ_eq_map, List.map_cons, List.map_map]
      simp only [List.singleton_append, Nat.zero_add, Nat.one_mul]
      congr 1
      apply List.map_congr_left
      intro k _
      simp only [Function.comp, Nat.succ_eq_add_one]
      have e1 : s + CHUNK_SIZE + (k + 1) * CHUNK_SIZE = s + (k + 1 + 1) * CHUNK_SIZE := by
        rw [Nat.add_mul (k + 1) 1, Nat.one_mul]; omega
      have e2 : z - CHUNK_SIZE - (k + 1) * CHUNK_SIZE = z - (k + 1 + 1) * CHUNK_SIZE := by
        rw [Nat.add_mul (k + 1) 1, Nat.one_mul]; omega
      rw [e1, e2]

/-- The sub-requests that the code makes for the range `{start, size}`: window
`k` for every `k` from `0` to `floor(size / CHUNK_SIZE)`. -/
theorem requests_eq (start size : Nat) (h : start + size < UINT64) :
    Buffer.requests start size
      = (List.range (size / CHUNK_SIZE + 1)).map (fun k =>
          BufferCall.download ⟨start + k * CHUNK_SIZE,
            min (size - k * CHUNK_SIZE) CHUNK_SIZE⟩) := by
  unfold Buffer.requests Buffer.item_received
  simp only []
  rw [drive_eq _ start size false false false h (by omega), List.range_succ_eq_map,
    List.map_cons, List.map_map]
  simp only [List.singleton_append, Nat.zero_mul, Nat.add_zero, Nat.sub_zero]
  rfl

/-- When `size` is not a multiple of `CHUNK_SIZE` the sub-requests made are
the windows of the specification. -/
theorem requests_eq_windows_spec (start size : Nat) (h : start + size < UINT64)
    (hm : size % CHUNK_SIZE ≠ 0) : Buffer.requests start size = windows_spec start size := by
  rw [requests_eq start size h]
  unfold windows_spec
  have hpos : 0 < CHUNK_SIZE := by decide
  have hc : (size + CHUNK_SIZE - 1) / CHUNK_SIZE = size / CHUNK_SIZE + 1 := by
    have h1 := Nat.div_add_mod size CHUNK_SIZE
    have h2 := Nat.mod_lt size hpos
    have h3 : size + CHUNK_SIZE - 1
        = (size % CHUNK_SIZE - 1) + (size / CHUNK_SIZE + 1) * CHUNK_SIZE := by
      rw [Nat.add_mul, Nat.one_mul, Nat.mul_comm]; omega
    rw [h3, Nat.add_mul_div_right _ _ hpos, Nat.div_eq_of_lt (by omega)]
    omega
  rw [hc]
  apply List.map_congr_left
  intro k _
  rw [Nat.min_comm]

/-- A download that `continue_download` has delayed (the queue holds half a
chunk or more) is started by the first `read` that finds the queue below half
a chunk, for the same window. -/
theorem delayed_download_started (Abort Suspend : Int) (b : Buffer) (max : Nat)
    (hd : b.delayed_ = true) (hq : (2 * b.size) % UINT64 < CHUNK_SIZE) :
    (Buffer.read Abort Suspend b max).2.1
      = [.download ⟨b.range_.start_, min b.range_.size_ CHUNK_SIZE⟩] := by
  unfold Buffer.read
  simp only [hq, hd, if_true, Buffer.run_download]
  split
  · rfl
  · split <;> rfl

/-- C21 (the code at the failing input). For the accepted range
`{0, CHUNK_SIZE}` the buffer makes two sub-requests: `{0, CHUNK_SIZE}` and
then, when that one has completed, the empty window `{CHUNK_SIZE, 0}`
(`continue_download` stops only when `range_.size_ < CHUNK_SIZE`, and the size
left is exactly `CHUNK_SIZE`); the specification has the single window
`{0, CHUNK_SIZE}`.  For `{5, 2 * CHUNK_SIZE}` there are three sub-requests, the
last one empty.  For `{5, 2 * CHUNK_SIZE + 1}` the sub-requests are the three
windows of the specification. -/
theorem buffer_requests_empty_window :
    Buffer.requests 0 CHUNK_SIZE
      = [.download ⟨0, CHUNK_SIZE⟩, .download ⟨CHUNK_SIZE, 0⟩] ∧
    windows_spec 0 CHUNK_SIZE = [.download ⟨0, CHUNK_SIZE⟩] ∧
    Buffer.requests 5 (2 * CHUNK_SIZE)
      = [.download ⟨5, CHUNK_SIZE⟩, .download ⟨5 + CHUNK_SIZE, CHUNK_SIZE⟩,
         .download ⟨5 + 2 * CHUNK_SIZE, 0⟩] ∧
    windows_spec 5 (2 * CHUNK_SIZE)
      = [.download ⟨5, CHUNK_SIZE⟩, .download ⟨5 + CHUNK_SIZE, CHUNK_SIZE⟩] ∧
    Buffer.requests 5 (2 * CHUNK_SIZE + 1) = windows_spec 5 (2 * CHUNK_SIZE + 1) := by
  decide

/-- The bytes a run of `put` and `read` calls has put, after those that were
queued at its start, are the bytes its reads returned followed by those left
in the queue. -/
theorem run_conserves (Abort Suspend : Int) (ops : List BufferOp) :
    ∀ b : Buffer,
      b.data_ ++ (Buffer.run Abort Suspend b ops).2.1
        = (Buffer.run Abort Suspend b ops).2.2 ++ (Buffer.run Abort Suspend b ops).1.data_ := by
  induction ops with
  | nil => intro b; simp [Buffer.run]
  | cons op rest ih =>
    intro b
    cases op with
    | put data =>
      have h := ih (b.put data)
      simp only [Buffer.run]
      simp only [Buffer.put] at h ⊢
      rw [← h, List.append_assoc]
    | read max =>
      have h := ih (Buffer.read Abort Suspend b max).1
      have hr : (Buffer.read Abort Suspend b max).2.2.buf
          ++ (Buffer.read Abort Suspend b max).1.data_ = b.data_ := by
        unfold Buffer.read
        simp only []
        split <;> split <;> (try split) <;> (try split) <;>
          simp [List.take_append_drop]
      simp only [Buffer.run]
      rw [List.append_assoc, ← h, ← List.append_assoc, hr]

/-- C22. On a buffer that is not aborted, `read(buf, max)` with `max` below
`2 ^ 31` (so that the count fits the `int` returned): on a non-empty queue it
returns `min(max, queued)`, writes the oldest that many queued bytes to `buf`
in order and removes them from the queue; on an empty queue it returns
`Suspend`, writes nothing and leaves the queue empty.  `put` appends to the
queue.  Hence for every sequence of `put` and `read` calls on a buffer with an
empty queue, the bytes returned by the reads, concatenated, are a prefix of
the bytes put, concatenated, and what is left in the queue is the rest. -/
theorem buffer_is_fifo (Abort Suspend : Int) (b : Buffer) (max : Nat) (data : Str)
    (ops : List BufferOp) (hab : b.abort_ = false) (hmax : max < 2 ^ 31) :
    (b.data_ ≠ [] →
      (Buffer.read Abort Suspend b max).2.2.value = (min max b.data_.length : Nat) ∧
      (Buffer.read Abort Suspend b max).2.2.buf = b.data_.take (min max b.data_.length) ∧
      (Buffer.read Abort Suspend b max).1.data_ = b.data_.drop (min max b.data_.length)) ∧
    (b.data_ = [] →
      (Buffer.read Abort Suspend b max).2.2 = ⟨Suspend, []⟩ ∧
      (Buffer.read Abort Suspend b max).1.data_ = []) ∧
    (b.put data).data_ = b.data_ ++ data ∧
    (Buffer.run Abort Suspend { b with data_ := [] } ops).2.2 <+:
      (Buffer.run Abort Suspend { b with data_ := [] } ops).2.1 ∧
    (Buffer.run Abort Suspend { b with data_ := [] } ops).2.1
      = (Buffer.run Abort Suspend { b with data_ := [] } ops).2.2
        ++ (Buffer.run Abort Suspend { b with data_ := [] } ops).1.data_ := by
  have hcons := run_conserves Abort Suspend ops { b with data_ := [] }
  simp only [List.nil_append] at hcons
  refine ⟨?_, ?_, rfl, ⟨_, hcons.symm⟩, hcons⟩
  · intro hne
    have hemp : b.data_.isEmpty = false := by
      cases hd : b.data_ with
      | nil => exact absurd hd hne
      | cons c cs => rfl
    have hcnt : min b.data_.length max < 2 ^ 31 := by omega
    have hto : to_int (min b.data_.length max) = (min max b.data_.length : Nat) := by
      unfold to_int
      have h1 : min b.data_.length max % 2 ^ 32 = min b.data_.length max :=
        Nat.mod_eq_of_lt (by omega)
      rw [h1, if_pos hcnt, Nat.min_comm]
    by_cases hq : (2 * b.size) % UINT64 < CHUNK_SIZE <;> cases hd : b.delayed_ <;>
      simp [Buffer.read, hq, hd, hab, hemp, hto, Nat.min_comm max]
  · intro he
    by_cases hq : (2 * b.size) % UINT64 < CHUNK_SIZE <;> cases hd : b.delayed_ <;>
      simp [Buffer.read, hq, hd, hab, he]

/-- Witness of C22: a buffer that holds `abc`; `read(buf, 2)` returns 2 and
the bytes `ab`, and `c` is left. -/
theorem buffer_is_fifo_witness :
    (Buffer.read (-2) (-1) ⟨"abc".toList, ⟨0, 0⟩, false, false, false⟩ 2).2.2
      = ⟨2, "ab".toList⟩ ∧
    (Buffer.read (-2) (-1) ⟨"abc".toList, ⟨0, 0⟩, false, false, false⟩ 2).1.data_
      = "c".toList := by
  have h := (buffer_is_fifo (-2) (-1) ⟨"abc".toList, ⟨0, 0⟩, false, false, false⟩ 2 []
    [] rfl (by decide)).1 (by decide)
  refine ⟨?_, h.2.2⟩
  decide

/-! ## Theorems on the downloads of `FileSystem::read` -/

theorem to_int64_range (n : Nat) : -(2 ^ 63) ≤ to_int64 n ∧ to_int64 n < 2 ^ 63 := by
  unfold to_int64
  split <;> omega

theorem to_uint64_to_int64 (n : Nat) (h : n < 2 ^ 64) : to_uint64 (to_int64 n) = n := by
  unfold to_uint64 to_int64
  split <;> omega

theorem to_uint64_range (v : Int) : (0 : Int) ≤ (to_uint64 v : Int) ∧ (to_uint64 v : Int) < 2 ^ 64 := by
  unfold to_uint64
  omega

theorem to_int64_to_uint64 (s : Int) (h1 : -(2 ^ 63) ≤ s) (h2 : s < 2 ^ 63) :
    to_int64 (to_uint64 s) = s := by
  unfold to_uint64 to_int64
  split <;> omega

theorem time_round_trip (C : ItemConstants) (s : Int) (hticks : 0 < C.ticks)
    (h1 : -(2 ^ 63) ≤ s) (h2 : s < 2 ^ 63) :
    from_time_t C (to_int64 (to_uint64 (to_time_t C (s * C.ticks)))) = s * C.ticks := by
  unfold from_time_t to_time_t
  have hne : (C.ticks : Int) ≠ 0 := by omega
  rw [Int.mul_tdiv_cancel _ hne, to_int64_to_uint64 s h1 h2]

theorem find_assign {α β : Type} [DecidableEq α] (m : List (α × β)) (key key2 : α)
    (value : β) :
    find (assign m key value) key2 = if key = key2 then some value else find m key2 := by
  induction m with
  | nil => simp [assign, find]
  | cons kv rest ih =>
    obtain ⟨k, v⟩ := kv
    by_cases h : k = key
    · subst h
      by_cases h2 : k = key2 <;> simp [assign, find, h2]
    · by_cases h2 : k = key2
      · subst h2
        have h3 : ¬ key = k := fun e => h e.symm
        simp [assign, find, h, h3]
      · simp [assign, find, h, h2, ih]

theorem find_ite {α β : Type} [DecidableEq α] (c : Prop) [Decidable c] (a b : List (α × β))
    (key : α) : find (if c then a else b) key = if c then find a key else find b key := by
  split <;> rfl

theorem get_filename (C : ItemConstants) (i : Utility.Item) :
    (JsonObject.get (i.toString C) "filename").asString = some i.filename_ := by
  simp [Utility.Item.toString, util.json.to_string, JsonObject.get, find_ite, find_assign, find,
    JsonValue.asString]

theorem get_id (C : ItemConstants) (i : Utility.Item) :
    (JsonObject.get (i.toString C) "id").asString = some i.id_ := by
  simp [Utility.Item.toString, util.json.to_string, JsonObject.get, find_ite, find_assign, find,
    JsonValue.asString]

theorem get_size (C : ItemConstants) (i : Utility.Item) :
    (JsonObject.get (i.toString C) "size").asInt64 = some (to_int64 i.size_) := by
  have hA := to_int64_range i.size_
  simp [Utility.Item.toString, util.json.to_string, JsonObject.get, find_ite, find_assign, find]
  unfold JsonValue.asInt64
  exact if_pos hA

theorem get_timestamp (C : ItemConstants) (i : Utility.Item) :
    (JsonObject.get (i.toString C) "timestamp").asUInt64
      = some (to_uint64 (to_time_t C i.timestamp_)) := by
  have hC := to_uint64_range (to_time_t C i.timestamp_)
  simp [Utility.Item.toString, util.json.to_string, JsonObject.get, find_ite, find_assign, find]
  unfold JsonValue.asUInt64
  simp only []
  rw [if_pos hC]
  simp

theorem get_type (C : ItemConstants) (i : Utility.Item) (ht1 : -(2 ^ 31) ≤ i.type_)
    (ht2 : i.type_ < 2 ^ 31) :
    (JsonObject.get (i.toString C) "type").asInt = some i.type_ := by
  simp [Utility.Item.toString, util.json.to_string, JsonObject.get, find_ite, find_assign, find]
  unfold JsonValue.asInt
  exact if_pos ⟨ht1, ht2⟩

theorem get_url (C : ItemConstants) (i : Utility.Item) :
    (JsonObject.get (i.toString C) "url").asString = some i.url_ := by
  simp [Utility.Item.toString, util.json.to_string, JsonObject.get, find_ite, find_assign, find]
  cases h : i.url_ <;> simp [JsonValue.asString]

theorem get_thumbnail_url (C : ItemConstants) (i : Utility.Item) :
    (JsonObject.get (i.toString C) "thumbnail_url").asString = some i.thumbnail_url_ := by
  simp [Utility.Item.toString, util.json.to_string, JsonObject.get, find_ite, find_assign, find]
  cases h : i.thumbnail_url_ <;> simp [JsonValue.asString]

theorem get_mime_type (C : ItemConstants) (i : Utility.Item) :
    (JsonObject.get (i.toString C) "mime_type").asString = some i.mime_type_ := by
  simp [Utility.Item.toString, util.json.to_string, JsonObject.get, find_ite, find_assign, find]
  cases h : i.mime_type_ <;> simp [JsonValue.asString]

theorem get_hidden (C : ItemConstants) (i : Utility.Item) :
    (JsonObject.get (i.toString C) "hidden").asBool = some i.is_hidden_ := by
  simp [Utility.Item.toString, util.json.to_string, JsonObject.get, find_ite, find_assign, find]
  cases h : i.is_hidden_ <;> simp [JsonValue.asBool]

theorem get_parents (C : ItemConstants) (i : Utility.Item) :
    (JsonObject.get (i.toString C) "parents").elements = i.parents_ := by
  simp [Utility.Item.toString, util.json.to_string, JsonObject.get, find_ite, find_assign, find]
  cases h : i.parents_ <;> simp [JsonValue.elements]

/-- The round trip of an item through `toString` and `fromString` gives back
every member but the type: the constructor that `fromString` calls replaces
the type `Unknown` by the type of the extension of the file name. -/
theorem from_string_to_string (C : ItemConstants) (i : Utility.Item) (s : Int)
    (hticks : 0 < C.ticks) (hts : i.timestamp_ = s * C.ticks)
    (hs1 : -(2 ^ 63) ≤ s) (hs2 : s < 2 ^ 63) (hsize : i.size_ < 2 ^ 64)
    (ht1 : -(2 ^ 31) ≤ i.type_) (ht2 : i.type_ < 2 ^ 31) :
    IItem.fromString C (i.toString C)
      = some { i with
          type_ := if i.type_ = C.Unknown then Utility.Item.fromExtension C i.extension
                   else i.type_ } := by
  have hB := to_uint64_to_int64 i.size_ hsize
  have hD := time_round_trip C s hticks hs1 hs2
  rw [← hts] at hD
  unfold IItem.fromString
  simp only [util.json.from_string, get_filename, get_id, get_size, get_timestamp,
    get_type C i ht1 ht2, get_url, get_thumbnail_url, get_mime_type, get_hidden, get_parents,
    hB, hD]
  unfold Utility.Item.make Utility.Item.set_thumbnail_url Utility.Item.set_hidden
    Utility.Item.set_url Utility.Item.set_mime_type Utility.Item.set_parents
    Utility.Item.extension
  simp only []
  split <;> rfl

/-- An item as the constructor makes it has a type other than `Unknown`, or a file
name whose extension determines no type. -/
theorem make_type (C : ItemConstants) (filename id : Str) (size : Nat) (timestamp type : Int) :
    (Utility.Item.make C filename id size timestamp type).type_ ≠ C.Unknown ∨
    Utility.Item.fromExtension C
      (Utility.Item.make C filename id size timestamp type).extension = C.Unknown := by
  unfold Utility.Item.make
  simp only []
  split
  · by_cases h : Utility.Item.fromExtension C (cloudstorage.extension filename) = C.Unknown
    · right; exact h
    · left; exact h
  · left; assumption

/-- C28 (the code at the counterexample). The item `a.mp4` whose type has been set
to `Unknown` comes back from `fromString(toString())` with the type `Video`:
the type is not the same. -/
theorem item_round_trip_counterexample :
    example_item.type_ = example_item_constants.Unknown ∧
    (IItem.fromString example_item_constants
      (example_item.toString example_item_constants)).map (fun j => j.type_)
      = some example_item_constants.Video ∧
    example_item_constants.Video ≠ example_item_constants.Unknown ∧
    IItem.fromString example_item_constants (example_item.toString example_item_constants)
      ≠ some example_item := by
  decide

/-- C28 (amended). For every item whose timestamp is a whole number `s` of seconds
at or after the epoch (within the range of `time_t`), `fromString(toString())`
returns an item with the same filename, id, url, size, timestamp, thumbnail
URL, hidden flag, parents and MIME type; its type is the same unless the type
is `Unknown`, in which case it is the type that the extension of the file name
determines.  In particular the item comes back unchanged when its type is not
`Unknown` or its extension determines no type, which holds for every item as
the constructor makes it. -/
theorem item_round_trip (C : ItemConstants) (i : Utility.Item) (s : Int)
    (hticks : 0 < C.ticks) (hts : i.timestamp_ = s * C.ticks)
    (hs1 : 0 ≤ s) (hs2 : s < 2 ^ 63) (hsize : i.size_ < 2 ^ 64)
    (ht1 : -(2 ^ 31) ≤ i.type_) (ht2 : i.type_ < 2 ^ 31) :
    IItem.fromString C (i.toString C)
      = some ⟨i.filename_, i.id_, i.url_, i.size_, i.timestamp_, i.thumbnail_url_,
          if i.type_ = C.Unknown then Utility.Item.fromExtension C i.extension else i.type_,
          i.is_hidden_, i.parents_, i.mime_type_⟩ ∧
    (i.type_ ≠ C.Unknown ∨ Utility.Item.fromExtension C i.extension = C.Unknown →
      IItem.fromString C (i.toString C) = some i) := by
  have h := from_string_to_string C i s hticks hts (by omega) hs2 hsize ht1 ht2
  refine ⟨h, fun hc => ?_⟩
  rw [h]
  cases hc with
  | inl hne => simp [hne]
  | inr heq =>
    by_cases ht : i.type_ = C.Unknown
    · simp [ht, heq]
      rw [← ht]
    · simp [ht]

/-- Witness of C28: the item `Item("a.txt", "id1", UnknownSize, 5 seconds,
Unknown)` comes back unchanged. -/
theorem item_round_trip_witness :
    IItem.fromString example_item_constants
      ((Utility.Item.make example_item_constants "a.txt".toList "id1".toList (2 ^ 64 - 1)
        5000000000 example_item_constants.Unknown).toString example_item_constants)
      = some (Utility.Item.make example_item_constants "a.txt".toList "id1".toList (2 ^ 64 - 1)
        5000000000 example_item_constants.Unknown) :=
  (item_round_trip example_item_constants
    (Utility.Item.make example_item_constants "a.txt".toList "id1".toList (2 ^ 64 - 1)
      5000000000 example_item_constants.Unknown) 5
    (by decide) (by decide) (by decide) (by decide) (by decide) (by decide) (by decide)).2
    (make_type _ _ _ _ _ _)

/-! ## Theorems on `FileSystem::rename_async` -/

/-- C24. For a provider, an item, a source parent and a destination that are
not null, `rename_async` issues `renameItemAsync(item, name)`, and nothing
else, exactly when the sanitized name of the item differs from `name`.  When
the names are equal it issues `moveItemAsync(item, destination)` exactly when
the parent and the destination are different objects, and otherwise invokes
the callback at once with the unchanged item.  The completion of a rename
that failed passes the error to the callback and issues no move; the
completion of one that succeeded with `renamed` issues
`moveItemAsync(renamed, destination)` exactly when parent and destination
differ, and otherwise invokes the callback with `renamed`. -/
theorem rename_async_steps (K : Constants) (fs : FileSystem) (p : Provider)
    (item parent destination renamed : Item) (name : Str) (ctx : RenameContext) (err : Error) :
    fs.rename_async K (some p) (some item) (some parent) (some destination) name ctx
      = (if FileSystem.sanitize item.filename ≠ name then
          (fs, [.renameItemAsync p item name parent destination ctx])
         else if parent.ptr ≠ destination.ptr then
          (fs, [.moveItemAsync p item destination ctx])
         else fs.rename_done ctx (.right item)) ∧
    (fs.rename_done ctx (.right item)).2 = [.callback ctx.callback (.item (.right item))] ∧
    fs.rename_async_renamed p parent destination ctx (.left err)
      = (fs, [.callback ctx.callback (.item (.left err))]) ∧
    fs.rename_async_renamed p parent destination ctx (.right renamed)
      = (if parent.ptr ≠ destination.ptr then
          (fs, [.moveItemAsync p renamed destination ctx])
         else fs.rename_done ctx (.right renamed)) ∧
    (fs.rename_done ctx (.right renamed)).2
      = [.callback ctx.callback (.item (.right renamed))] := by
  refine ⟨?_, rfl, rfl, ?_, rfl⟩
  · simp only [FileSystem.rename_async, FileSystem.move]
  · simp only [FileSystem.rename_async_renamed, FileSystem.move]

end cloudstorage
